import Mathlib

/-!
Shallow embedding of the padel tournament scheduler and statistics
aggregator from `src/App.tsx`, together with proofs of the specification
claims.  JavaScript numbers are modelled as `Nat`/`Int` (all arithmetic
performed by the program stays well inside the exact-integer range of
IEEE doubles), strings as `String`, fallible code as `Except String`.
-/

namespace Padel

/-! ### Utils (`shuffle`, `mulberry32`, `pairKey`) -/

/-- 2^32, the modulus of all 32-bit JavaScript bitwise operations. -/
def U32 : Nat := 4294967296

/-- `Math.imul`: 32-bit integer multiplication.  The sign of the JS result
is irrelevant here because every use feeds into further operations that
only depend on the value mod 2^32. -/
def imul32 (x y : Nat) : Nat := x * y % U32

/-- One step of the `mulberry32` generator.  The JS closure mutates its
captured `seed` (`seed += 0x6d2b79f5`, never truncated); we thread that
accumulator explicitly.  Returns the raw 32-bit output (the JS function
divides it by 2^32 to obtain a float) and the new accumulator. -/
def mulberryNext (seed : Nat) : Nat × Nat :=
  let s := seed + 0x6d2b79f5
  let t0 := s % U32
  let t1 := imul32 (Nat.xor t0 (t0 >>> 15)) (t0 ||| 1)
  let t2 := Nat.xor t1 ((t1 + imul32 (Nat.xor t1 (t1 >>> 7)) (t1 ||| 61)) % U32)
  (Nat.xor t2 (t2 >>> 14) % U32, s)

/-- `Math.floor(rng() * n)`.  Since the raw output `o < 2^32` and
`n ≤ 12` in every call, `o * n ≤ (2^32 - 1) * 12 < 2^53`, so the JS float
computation `floor((o / 2^32) * n)` is exactly `o * n / 2^32` in integer
arithmetic. -/
def randBelow (seed n : Nat) : Nat × Nat :=
  let p := mulberryNext seed
  (p.1 * n / U32, p.2)

/-- `[a[i], a[j]] = [a[j], a[i]]`.  Both indices are always in bounds at
the call site (`j ≤ i < a.length`), where this agrees with JS. -/
def jsSwap (l : List α) (i j : Nat) : List α :=
  match l[i]?, l[j]? with
  | some x, some y => (l.set i y).set j x
  | _, _ => l

/-- The loop of `shuffle`: `for (let i = a.length - 1; i > 0; i--)`.
The argument is the current loop counter `i`. -/
def shuffleGo (l : List α) (seed : Nat) : Nat → List α × Nat
  | 0 => (l, seed)
  | i + 1 =>
    let p := randBelow seed (i + 2)
    shuffleGo (jsSwap l (i + 1) p.1) p.2 i

/-- `shuffle(arr, rng)`: seeded Fisher–Yates on a copy of the array. -/
def shuffle (l : List α) (seed : Nat) : List α × Nat :=
  shuffleGo l seed (l.length - 1)

/-- JS `<` on strings: lexicographic comparison of the character
sequences.  (JS compares UTF-16 code units; the two orders agree on all
id strings at play, which are far below the surrogate range.) -/
def strLtb : List Char → List Char → Bool
  | [], [] => false
  | [], _ :: _ => true
  | _ :: _, [] => false
  | a :: as, b :: bs =>
    if a.toNat < b.toNat then true
    else if b.toNat < a.toNat then false
    else strLtb as bs

/-- `a < b` on JS strings. -/
def jsLt (a b : String) : Bool := strLtb a.data b.data

/-- `a <= b` on JS strings, also the meaning of `localeCompare(…) <= 0`
under the default-lexicographic model of `localeCompare`. -/
def jsLe (a b : String) : Bool := !jsLt b a

/-- `pairKey = (a, b) => (a < b ? a + '-' + b : b + '-' + a)`. -/
def pairKey (a b : String) : String :=
  if jsLt a b then a ++ "-" ++ b else b ++ "-" ++ a

/-- Insert `x` into an already sorted list, before the first element `y`
with `le x y` (so, for a later-inserted element, after nothing that may
equivalently precede it — see `stableSort`). -/
def insertSorted (le : α → α → Bool) (x : α) : List α → List α
  | [] => [x]
  | y :: ys => if le x y then x :: y :: ys else y :: insertSorted le x ys

/-- `Array.prototype.sort(cmp)`: for a consistent comparator JS sort is
a stable sort, and every stable sort of a list with respect to the same
total preorder produces the same output; it is modelled as a stable
insertion sort (elements inserted right to left, each placed before the
equivalent elements already present, preserving the original order of
ties). -/
def stableSort (le : α → α → Bool) (l : List α) : List α :=
  l.foldr (insertSorted le) []

/-! ### Data model -/

structure Player where
  id : String
  name : String
deriving DecidableEq, Repr

structure Team where
  a : String
  b : String
deriving DecidableEq, Repr

structure Score where
  team1 : Int
  team2 : Int
deriving DecidableEq, Repr

structure Game where
  court : Nat
  team1 : Team
  team2 : Team
  score : Option Score := none
deriving DecidableEq, Repr

structure Round where
  round : Nat
  matchList : List Game
deriving DecidableEq, Repr

/-! ### Schedule generator -/

/-- `s.trim()`: drop leading and trailing whitespace.  (JS trims the
full Unicode white-space class; ASCII whitespace suffices for the names
at play.) -/
def jsTrim (s : String) : String :=
  String.mk (((s.data.dropWhile (·.isWhitespace)).reverse.dropWhile (·.isWhitespace)).reverse)

/-- `s.toLowerCase()`, per character (ASCII case mapping, which is all
the Duo rule needs to distinguish). -/
def jsToLower (s : String) : String :=
  String.mk (s.data.map Char.toLower)

/-- `/^(daniel|macho)$/.test(lower(p.name))` with
`lower = s => s.trim().toLowerCase()`. -/
def isDuoName (s : String) : Bool :=
  let t := jsToLower (jsTrim s)
  t = "daniel" || t = "macho"

/-- The ids of the players matching the Duo name rule, in player-list
order (`players.filter(...).map(p => p.id)`). -/
def duoIds (players : List Player) : List String :=
  (players.filter fun p => isDuoName p.name).map (·.id)

/-- The ids of the players whose id differs from both Duo ids
(`players.filter(p => p.id !== D && p.id !== M).map(p => p.id)`). -/
def otherIds (players : List Player) (D M : String) : List String :=
  (players.filter fun p => p.id ≠ D && p.id ≠ M).map (·.id)

/-- Increment one entry of the appearance-count map. -/
def bump (c : String → Nat) (x : String) : String → Nat :=
  fun y => if y = x then c y + 1 else c y

/-- `ids.slice().sort((a, b) => (counts.get(a) - counts.get(b)) || a.localeCompare(b))`:
ascending by count, ties by string order.  (`localeCompare` is modelled
as the default lexicographic order on strings.)  JS `sort` with a
consistent comparator produces the unique stable order, as `stableSort`
does. -/
def sortPool (ids : List String) (c : String → Nat) : List String :=
  stableSort (fun a b => c a < c b || (c a = c b && jsLe a b)) ids

/-- The candidate pairs tried at one slot of the backtracking search, in
loop order: all `(a, b)` with `a` at position `i` and `b` at position
`j > i` of the sorted pool, both with count below `NEED = 3`, whose
unordered `pairKey` is not yet used. -/
def candList (c : String → Nat) (used : List String) : List String → List (String × String)
  | [] => []
  | a :: rest =>
    (if c a < 3 then
      (rest.filter fun b => c b < 3 && !used.contains (pairKey a b)).map fun b => (a, b)
     else []) ++ candList c used rest

/-- `ids.reduce((acc, id) => acc + Math.max(0, NEED - counts.get(id)), 0)`;
`Nat` subtraction is exactly `max 0 (3 - c id)`. -/
def needTotal (ids : List String) (c : String → Nat) : Nat :=
  ids.foldl (fun acc id => acc + (3 - c id)) 0

/-- The recursive `backtrack(k)` procedure.  The first argument is the
number of slots still to fill (`15 - k`); the counts map, used-pair set
and partial result are threaded functionally (the JS mutation is undone
on every failed branch, so the two presentations agree).  `findSome?`
returns the first candidate whose branch succeeds, exactly as the JS
loops propagate the first `return true`. -/
def backtrack (ids : List String) : Nat → (String → Nat) → List String → Option (List (String × String))
  | 0, _, _ => some []
  | r + 1, c, used =>
    (candList c used (sortPool ids c)).findSome? fun ab =>
      let c2 := bump (bump c ab.1) ab.2
      let used2 := pairKey ab.1 ab.2 :: used
      -- feasibility quick check: remainingSlots = (15 - (k+1)) * 2 = r * 2
      if needTotal ids c2 ≤ r * 2 then
        (backtrack ids r c2 used2).map fun rest => ab :: rest
      else none

/-- `buildBalancedDmOpponents(ids)`. -/
def buildBalancedDmOpponents (ids : List String) : Except String (List (String × String)) :=
  match backtrack ids 15 (fun _ => 0) [] with
  | some res => .ok res
  | none => .error "Could not balance Daniel & Macho opponents. Try another seed."

/-- The chunking loop of `pairRemaining`:
`for (let i = 0; i < arr.length; i += 2) out.push([arr[i], arr[i + 1]])`.
On an odd-length array JS reads `arr[i + 1]` out of bounds, yielding
`undefined`; since the data model types team slots as id strings we model
that read as `""`.  (An odd length is reachable only when the input
players carry duplicate ids, and generation then provably fails before
returning, so no returned schedule ever contains this filler.) -/
def chunkPairs : List String → List (String × String)
  | [] => []
  | [a] => [(a, "")]
  | a :: b :: rest => (a, b) :: chunkPairs rest

/-- `pairRemaining(eight)`: shuffle then chunk into consecutive pairs. -/
def pairRemaining (eight : List String) (seed : Nat) : List (String × String) × Nat :=
  let p := shuffle eight seed
  (chunkPairs p.1, p.2)

/-- The 12 team slots of a round's matches in validation order. -/
def roundSlots (ms : List Game) : List String :=
  ms.flatMap fun m => [m.team1.a, m.team1.b, m.team2.a, m.team2.b]

/-- The body of the `for (let r = 0; r < 15; r++)` loop of
`generateSchedule`: one round per remaining Duo-opponent pair, threading
the RNG accumulator.  The JS round validation (`new Set(ids).size === 4`
per match plus the cross-match `seen` check and `seen.size === 12`) is
equivalent to: the 12-slot list is duplicate-free and has length 12.
Reading `pp[0]..pp[3]` when fewer than 4 pairs exist throws a `TypeError`
in JS; it is modelled as the corresponding error. -/
def buildRounds (D M : String) (others : List String) : List (String × String) → Nat → Nat → Except String (List Round)
  | [], _, _ => .ok []
  | opp :: rest, r, seed =>
    let usedIds := [D, M, opp.1, opp.2]
    let rem := others.filter fun id => !usedIds.contains id
    let pr := pairRemaining rem seed
    let pq := shuffle pr.1 pr.2
    let pp := pq.1
    match pp[0]?, pp[1]?, pp[2]?, pp[3]? with
    | some q0, some q1, some q2, some q3 =>
      let ms : List Game :=
        [ { court := 7, team1 := { a := D, b := M }, team2 := { a := opp.1, b := opp.2 } },
          { court := 8, team1 := { a := q0.1, b := q0.2 }, team2 := { a := q1.1, b := q1.2 } },
          { court := 9, team1 := { a := q2.1, b := q2.2 }, team2 := { a := q3.1, b := q3.2 } } ]
      if (roundSlots ms).Nodup ∧ (roundSlots ms).length = 12 then
        (buildRounds D M others rest (r + 1) pq.2).map fun rds =>
          { round := r + 1, matchList := ms } :: rds
      else
        .error ("Internal round construction error at round " ++ toString (r + 1))
    | _, _, _, _ =>
      .error ("TypeError: round " ++ toString (r + 1) ++ " has fewer than 4 remaining pairs")

/-- `generateSchedule(players, seed)`. -/
def generateSchedule (players : List Player) (seed : Nat) : Except String (List Round) :=
  if players.length ≠ 12 then .error "Requires exactly 12 players" else
  match duoIds players with
  | [D, M] =>
    let others := otherIds players D M
    if others.length ≠ 10 then
      .error "Exactly 10 players besides Daniel & Macho are required"
    else
      match buildBalancedDmOpponents others with
      | .error e => .error e
      | .ok dmOppPairs => buildRounds D M others dmOppPairs 0 seed
  | _ => .error "Two players must be named Daniel and Macho"

/-! ### Stats helpers -/

/-- A standings row (`rows` map entry of `computeStats`). -/
structure Row where
  player : String
  name : String
  played : Nat
  won : Nat
  tied : Nat
  lost : Nat
  pointsFor : Int
  pointsAgainst : Int
  diff : Int
deriving DecidableEq, Repr

/-- `idToName.get(id)`: JS `Map` construction keeps the last entry for a
duplicated key, hence the reversed search. -/
def lookupName (players : List Player) (id : String) : Option String :=
  (players.reverse.find? fun p => p.id = id).map (·.name)

/-- `x || y` on a possibly-undefined string: `undefined` and `""` are
falsy. -/
def jsOrStr (x : Option String) (y : String) : String :=
  match x with
  | some s => if s = "" then y else s
  | none => y

/-- A fresh all-zero row, as created by `ensure`
(`name: idToName.get(id) || id`). -/
def freshRow (players : List Player) (id : String) : Row :=
  { player := id, name := jsOrStr (lookupName players id) id,
    played := 0, won := 0, tied := 0, lost := 0,
    pointsFor := 0, pointsAgainst := 0, diff := 0 }

/-- `ensure(id)` followed by a mutation of the returned row: insert a
fresh row at the end if absent, then apply the update to the row with
this player id. -/
def updateRow (players : List Player) (rows : List Row) (id : String) (f : Row → Row) : List Row :=
  if rows.any fun r => r.player = id then
    rows.map fun r => if r.player = id then f r else r
  else
    rows ++ [f (freshRow players id)]

/-- The body of the match loop of `computeStats`: skip matches with no
score or an invalid (non-24) total, otherwise credit both teams'
members in source order. -/
def processMatch (players : List Player) (rows : List Row) (m : Game) : List Row :=
  match m.score with
  | none => rows
  | some sc =>
    if sc.team1 + sc.team2 ≠ 24 then rows
    else
      let s1 := sc.team1
      let s2 := sc.team2
      let r1 := updateRow players rows m.team1.a fun r =>
        { r with played := r.played + 1, pointsFor := r.pointsFor + s1, pointsAgainst := r.pointsAgainst + s2 }
      let r2 := updateRow players r1 m.team1.b fun r =>
        { r with played := r.played + 1, pointsFor := r.pointsFor + s1, pointsAgainst := r.pointsAgainst + s2 }
      let r3 := updateRow players r2 m.team2.a fun r =>
        { r with played := r.played + 1, pointsFor := r.pointsFor + s2, pointsAgainst := r.pointsAgainst + s1 }
      let r4 := updateRow players r3 m.team2.b fun r =>
        { r with played := r.played + 1, pointsFor := r.pointsFor + s2, pointsAgainst := r.pointsAgainst + s1 }
      if s1 > s2 then
        let w1 := updateRow players r4 m.team1.a fun r => { r with won := r.won + 1 }
        let w2 := updateRow players w1 m.team1.b fun r => { r with won := r.won + 1 }
        let w3 := updateRow players w2 m.team2.a fun r => { r with lost := r.lost + 1 }
        updateRow players w3 m.team2.b fun r => { r with lost := r.lost + 1 }
      else if s2 > s1 then
        let w1 := updateRow players r4 m.team2.a fun r => { r with won := r.won + 1 }
        let w2 := updateRow players w1 m.team2.b fun r => { r with won := r.won + 1 }
        let w3 := updateRow players w2 m.team1.a fun r => { r with lost := r.lost + 1 }
        updateRow players w3 m.team1.b fun r => { r with lost := r.lost + 1 }
      else
        let w1 := updateRow players r4 m.team1.a fun r => { r with tied := r.tied + 1 }
        let w2 := updateRow players w1 m.team1.b fun r => { r with tied := r.tied + 1 }
        let w3 := updateRow players w2 m.team2.a fun r => { r with tied := r.tied + 1 }
        updateRow players w3 m.team2.b fun r => { r with tied := r.tied + 1 }

/-- `x || y` on JS numbers: `0` is falsy. -/
def jsOrInt (x y : Int) : Int := if x ≠ 0 then x else y

/-- `a.localeCompare(b)`, modelled as the default lexicographic string
order: negative, zero or positive. -/
def strCmp (a b : String) : Int :=
  if jsLt a b then -1 else if jsLt b a then 1 else 0

/-- The sort comparator of `computeStats`:
`b.pointsFor - a.pointsFor || b.won - a.won || b.diff - a.diff || a.name.localeCompare(b.name)`. -/
def statCmp (a b : Row) : Int :=
  jsOrInt (b.pointsFor - a.pointsFor)
    (jsOrInt ((b.won : Int) - (a.won : Int))
      (jsOrInt (b.diff - a.diff) (strCmp a.name b.name)))

/-- `computeStats(schedule, players)`.  JS `Array.prototype.sort` is
stable and the comparator is consistent, so its result is the unique
stable order, which `stableSort` also produces. -/
def computeStats (schedule : List Round) (players : List Player) : List Row :=
  let rows := (schedule.flatMap (·.matchList)).foldl (processMatch players) []
  let list := rows.map fun r => { r with diff := r.pointsFor - r.pointsAgainst }
  stableSort (fun a b => statCmp a b ≤ 0) list

/-- `t.includes(danielId) && t.includes(machoId)` for a two-member team. -/
def hasDM (danielId machoId : String) (t : Team) : Bool :=
  (t.a = danielId || t.b = danielId) && (t.a = machoId || t.b = machoId)

/-- `players.find(p => p.id === id)?.name || id` (first match; empty or
missing name falls back to the id). -/
def nameOf (players : List Player) (id : String) : String :=
  jsOrStr ((players.find? fun p => p.id = id).map (·.name)) id

/-- One entry of the Duo game log. -/
structure GameLogEntry where
  round : Nat
  oppNames : String
  score : Option String
  result : Option String
deriving DecidableEq, Repr

/-- The per-match body of `dmStats`: an entry is pushed for every match
in which the Duo played, whether or not it has a score; `score` and
`result` stay `undefined` (here `none`) for unscored matches, and there
is no sum-24 validity filter. -/
def dmStatsEntry (danielId machoId : String) (players : List Player) (rnd : Nat) (m : Game) : Option GameLogEntry :=
  if hasDM danielId machoId m.team1 || hasDM danielId machoId m.team2 then
    let opp := if hasDM danielId machoId m.team1 then m.team2 else m.team1
    let oppNames := nameOf players opp.a ++ " & " ++ nameOf players opp.b
    match m.score with
    | some sc =>
      let s1 := sc.team1
      let s2 := sc.team2
      let dmOnTeam1 := hasDM danielId machoId m.team1
      let dmScore := if dmOnTeam1 then s1 else s2
      let oppScore := if dmOnTeam1 then s2 else s1
      let result := if dmScore > oppScore then "W" else if dmScore < oppScore then "L" else "T"
      some { round := rnd, oppNames := oppNames,
             score := some (toString s1 ++ "-" ++ toString s2), result := some result }
    | none => some { round := rnd, oppNames := oppNames, score := none, result := none }
  else none

/-- `dmStats(schedule, danielId, machoId, players)`. -/
def dmStats (schedule : List Round) (danielId machoId : String) (players : List Player) : List GameLogEntry :=
  schedule.flatMap fun r => r.matchList.filterMap (dmStatsEntry danielId machoId players r.round)

/-- The accumulator of `dmSummary`'s loop:
`(played, won, tied, lost, pointsFor)`. -/
structure DmAcc where
  played : Nat
  won : Nat
  tied : Nat
  lost : Nat
  pointsFor : Int
deriving DecidableEq, Repr

/-- The per-match step of `dmSummary`: only matches in which the Duo
played and whose score sums to 24 are counted. -/
def dmSummaryStep (danielId machoId : String) (acc : DmAcc) (m : Game) : DmAcc :=
  if hasDM danielId machoId m.team1 || hasDM danielId machoId m.team2 then
    match m.score with
    | none => acc
    | some sc =>
      if sc.team1 + sc.team2 ≠ 24 then acc
      else
        let dmOnTeam1 := hasDM danielId machoId m.team1
        let dmScore := if dmOnTeam1 then sc.team1 else sc.team2
        let oppScore := if dmOnTeam1 then sc.team2 else sc.team1
        { played := acc.played + 1,
          won := acc.won + (if dmScore > oppScore then 1 else 0),
          tied := acc.tied + (if dmScore = oppScore then 1 else 0),
          lost := acc.lost + (if dmScore < oppScore then 1 else 0),
          pointsFor := acc.pointsFor + dmScore }
  else acc

/-- The fully folded accumulator of `dmSummary`. -/
def dmSummaryAcc (schedule : List Round) (danielId machoId : String) : DmAcc :=
  (schedule.flatMap (·.matchList)).foldl (dmSummaryStep danielId machoId)
    { played := 0, won := 0, tied := 0, lost := 0, pointsFor := 0 }

/-- The returned summary object `{ played, won, tied, lost, avg }`; the
JS float average is exact on the values produced here, modelled as a
rational. -/
structure DmSummary where
  played : Nat
  won : Nat
  tied : Nat
  lost : Nat
  avg : ℚ
deriving DecidableEq, Repr

/-- `dmSummary(schedule, danielId, machoId)`:
`avg = played ? pointsFor / played : 0`. -/
def dmSummary (schedule : List Round) (danielId machoId : String) : DmSummary :=
  let acc := dmSummaryAcc schedule danielId machoId
  { played := acc.played, won := acc.won, tied := acc.tied, lost := acc.lost,
    avg := if acc.played = 0 then 0 else (acc.pointsFor : ℚ) / (acc.played : ℚ) }

/-! ### Score update (`setScoreAuto`) -/

/-- `Math.max(0, Math.min(24, x))`. -/
def clamp24 (x : Int) : Int := max 0 (min 24 x)

/-- `setScoreAuto(roundIdx, matchIdx, value, side)` as a pure
copy-on-write update of the schedule.  Notes kept from the source: the
initial read of the previous score is dead (both `a` and `b` are
overwritten on either branch); `Number.isFinite(value)` always holds for
an integer value; any side other than `1` takes the team-2 branch; JS
throws on an out-of-bounds round index, while `List.modify` is the
identity there (the claims address existing matches only). -/
def setScoreAuto (schedule : List Round) (roundIdx matchIdx : Nat) (value : Int) (side : Nat) : List Round :=
  schedule.modify (fun r =>
    { r with matchList := r.matchList.modify (fun m =>
        let a := if side = 1 then value else clamp24 (24 - value)
        let b := if side = 1 then clamp24 (24 - value) else value
        { m with score := some { team1 := clamp24 a, team2 := clamp24 b } }) matchIdx }) roundIdx

/-! ### Permutation lemmas for `jsSwap`, `shuffle` and `stableSort` -/

theorem list_set_self : ∀ (l : List α) (i : Nat) (h : i < l.length), l.set i (l.get ⟨i, h⟩) = l
  | _ :: _, 0, _ => rfl
  | a :: t, i + 1, h => by
    simpa using congrArg (a :: ·) (list_set_self t i (by simpa using h))

theorem headSwap_perm : ∀ (t : List α) (k : Nat) (a : α) (hk : k < t.length),
    List.Perm (t.get ⟨k, hk⟩ :: t.set k a) (a :: t)
  | b :: t, 0, a, _ => List.Perm.swap a b t
  | b :: t, k + 1, a, hk => by
    have hk' : k < t.length := by simpa using hk
    have ih := headSwap_perm t k a hk'
    have e1 : (b :: t).get ⟨k + 1, hk⟩ :: (b :: t).set (k + 1) a
        = t.get ⟨k, hk'⟩ :: b :: t.set k a := by simp
    rw [e1]
    exact ((List.Perm.swap b _ _).trans ((ih.cons b).trans (List.Perm.swap a b t)))

theorem swap_set_perm : ∀ (l : List α) (i j : Nat) (hi : i < l.length) (hj : j < l.length),
    List.Perm ((l.set i (l.get ⟨j, hj⟩)).set j (l.get ⟨i, hi⟩)) l
  | a :: t, 0, 0, _, _ => by simp
  | a :: t, 0, k + 1, _, hj => by
    have hk : k < t.length := by simpa using hj
    have e : ((a :: t).set 0 ((a :: t).get ⟨k + 1, hj⟩)).set (k + 1) ((a :: t).get ⟨0, by simp⟩)
        = t.get ⟨k, hk⟩ :: t.set k a := by simp
    rw [e]
    exact headSwap_perm t k a hk
  | a :: t, m + 1, 0, hi, _ => by
    have hm : m < t.length := by simpa using hi
    have e : ((a :: t).set (m + 1) ((a :: t).get ⟨0, by simp⟩)).set 0 ((a :: t).get ⟨m + 1, hi⟩)
        = t.get ⟨m, hm⟩ :: t.set m a := by simp
    rw [e]
    exact headSwap_perm t m a hm
  | a :: t, m + 1, k + 1, hi, hj => by
    have hm : m < t.length := by simpa using hi
    have hk : k < t.length := by simpa using hj
    have e : ((a :: t).set (m + 1) ((a :: t).get ⟨k + 1, hj⟩)).set (k + 1) ((a :: t).get ⟨m + 1, hi⟩)
        = a :: (t.set m (t.get ⟨k, hk⟩)).set k (t.get ⟨m, hm⟩) := by simp
    rw [e]
    exact (swap_set_perm t m k hm hk).cons a

theorem jsSwap_perm (l : List α) (i j : Nat) : List.Perm (jsSwap l i j) l := by
  unfold jsSwap
  cases hi : l[i]? with
  | none => exact List.Perm.refl l
  | some x =>
    cases hj : l[j]? with
    | none => exact List.Perm.refl l
    | some y =>
      rcases List.getElem?_eq_some_iff.mp hi with ⟨hi', hx⟩
      rcases List.getElem?_eq_some_iff.mp hj with ⟨hj', hy⟩
      have hx' : x = l.get ⟨i, hi'⟩ := by simp [← hx]
      have hy' : y = l.get ⟨j, hj'⟩ := by simp [← hy]
      rw [hx', hy']
      exact swap_set_perm l i j hi' hj'

theorem shuffleGo_perm : ∀ (n : Nat) (l : List α) (seed : Nat),
    List.Perm (shuffleGo l seed n).1 l
  | 0, _, _ => List.Perm.refl _
  | n + 1, l, seed => by
    rw [shuffleGo]
    exact (shuffleGo_perm n _ _).trans (jsSwap_perm l (n + 1) _)

theorem shuffle_perm (l : List α) (seed : Nat) : List.Perm (shuffle l seed).1 l :=
  shuffleGo_perm _ l seed

theorem insertSorted_perm (le : α → α → Bool) (x : α) :
    ∀ (l : List α), List.Perm (insertSorted le x l) (x :: l)
  | [] => List.Perm.refl _
  | y :: ys => by
    rw [insertSorted]
    split
    · exact List.Perm.refl _
    · exact ((insertSorted_perm le x ys).cons y).trans (List.Perm.swap x y ys)

theorem stableSort_perm (le : α → α → Bool) : ∀ (l : List α), List.Perm (stableSort le l) l
  | [] => List.Perm.refl _
  | x :: l => by
    have e : stableSort le (x :: l) = insertSorted le x (stableSort le l) := rfl
    rw [e]
    exact (insertSorted_perm le x _).trans ((stableSort_perm le l).cons x)

theorem mem_insertSorted {le : α → α → Bool} {x z : α} {l : List α} :
    z ∈ insertSorted le x l → z = x ∨ z ∈ l := by
  intro hz
  exact List.mem_cons.mp ((insertSorted_perm le x l).mem_iff.mp hz)

theorem insertSorted_pairwise {le : α → α → Bool}
    (htrans : ∀ a b c, le a b = true → le b c = true → le a c = true)
    (htotal : ∀ a b, le a b = true ∨ le b a = true) (x : α) :
    ∀ {l : List α}, l.Pairwise (le · · = true) →
      (insertSorted le x l).Pairwise (le · · = true)
  | [], _ => by simp [insertSorted]
  | y :: ys, h => by
    rcases List.pairwise_cons.mp h with ⟨hy, hys⟩
    rw [insertSorted]
    by_cases hxy : le x y = true
    · simp only [hxy, if_true]
      refine List.pairwise_cons.mpr ⟨?_, h⟩
      intro z hz
      rcases List.mem_cons.mp hz with rfl | hz
      · exact hxy
      · exact htrans x y z hxy (hy z hz)
    · simp only [hxy, if_false]
      have hyx : le y x = true := (htotal x y).resolve_left hxy
      refine List.pairwise_cons.mpr ⟨?_, insertSorted_pairwise htrans htotal x hys⟩
      intro z hz
      rcases mem_insertSorted hz with rfl | hz
      · exact hyx
      · exact hy z hz

theorem stableSort_pairwise {le : α → α → Bool}
    (htrans : ∀ a b c, le a b = true → le b c = true → le a c = true)
    (htotal : ∀ a b, le a b = true ∨ le b a = true) :
    ∀ (l : List α), (stableSort le l).Pairwise (le · · = true)
  | [] => by simp [stableSort]
  | x :: l => by
    have e : stableSort le (x :: l) = insertSorted le x (stableSort le l) := rfl
    rw [e]
    exact insertSorted_pairwise htrans htotal x (stableSort_pairwise htrans htotal l)

/-! ### `chunkPairs` lemmas -/

/-- The flattened slot sequence of a list of team pairs. -/
def flattenPairs (ps : List (String × String)) : List String :=
  ps.flatMap fun p => [p.1, p.2]

theorem flattenPairs_cons (p : String × String) (ps : List (String × String)) :
    flattenPairs (p :: ps) = p.1 :: p.2 :: flattenPairs ps := rfl

theorem flattenPairs_length : ∀ (ps : List (String × String)),
    (flattenPairs ps).length = 2 * ps.length
  | [] => rfl
  | p :: ps => by
    rw [flattenPairs_cons]
    simp [flattenPairs_length ps]
    ring

theorem flattenPairs_perm {ps qs : List (String × String)} (h : List.Perm ps qs) :
    List.Perm (flattenPairs ps) (flattenPairs qs) :=
  h.flatMap_right _

theorem chunkPairs_flatten : ∀ (l : List String),
    flattenPairs (chunkPairs l) = l ∨ flattenPairs (chunkPairs l) = l ++ [""]
  | [] => .inl rfl
  | [_] => .inr rfl
  | a :: b :: rest => by
    rcases chunkPairs_flatten rest with h | h
    · exact .inl (by rw [chunkPairs, flattenPairs_cons, h])
    · exact .inr (by rw [chunkPairs, flattenPairs_cons, h]; rfl)

theorem chunkPairs_flatten_even : ∀ (l : List String), l.length % 2 = 0 →
    flattenPairs (chunkPairs l) = l
  | [], _ => rfl
  | [_], h => by simp at h
  | a :: b :: rest, h => by
    have h' : rest.length % 2 = 0 := by simp at h; omega
    rw [chunkPairs, flattenPairs_cons, chunkPairs_flatten_even rest h']

theorem chunkPairs_length : ∀ (l : List String),
    (chunkPairs l).length = (l.length + 1) / 2
  | [] => rfl
  | [_] => by simp [chunkPairs]
  | a :: b :: rest => by
    rw [chunkPairs]
    simp [chunkPairs_length rest]
    omega

/-! ### Backtracking-search invariants -/

theorem bump2_apply (c : String → Nat) (a b x : String) :
    bump (bump c a) b x = c x + (if x = a then 1 else 0) + (if x = b then 1 else 0) := by
  simp only [bump]
  split_ifs <;> omega

theorem candList_mem {c : String → Nat} {used : List String} {a b : String} :
    ∀ {pool : List String}, (a, b) ∈ candList c used pool →
      c a < 3 ∧ c b < 3 ∧ a ∈ pool ∧ b ∈ pool ∧
      (a = b → 2 ≤ pool.count a) ∧ (pool.Nodup → a ≠ b)
  | [], h => by simp [candList] at h
  | p :: rest, h => by
    rw [candList] at h
    rcases List.mem_append.mp h with h | h
    · by_cases hp : c p < 3
      · rw [if_pos hp] at h
        rcases List.mem_map.mp h with ⟨b0, hb0, hba⟩
        simp only [Prod.mk.injEq] at hba
        obtain ⟨rfl, rfl⟩ := hba
        rcases List.mem_filter.mp hb0 with ⟨hbrest, hpred⟩
        have hb3 : c b0 < 3 := by
          have := ((Bool.and_eq_true _ _).mp hpred).1
          simpa using this
        refine ⟨hp, hb3, List.mem_cons_self p rest, List.mem_cons_of_mem p hbrest, ?_, ?_⟩
        · intro hab
          subst hab
          have hcnt : 0 < rest.count p := List.count_pos_iff.mpr hbrest
          rw [List.count_cons_self]
          omega
        · intro hnd
          rcases List.nodup_cons.mp hnd with ⟨hnin, _⟩
          intro hab
          exact hnin (hab ▸ hbrest)
      · rw [if_neg hp] at h
        simp at h
    · have ih := candList_mem h
      refine ⟨ih.1, ih.2.1, List.mem_cons_of_mem p ih.2.2.1, List.mem_cons_of_mem p ih.2.2.2.1,
        ?_, fun hnd => ih.2.2.2.2.2 (List.nodup_cons.mp hnd).2⟩
      intro hab
      have h2 := ih.2.2.2.2.1 hab
      rw [List.count_cons]
      omega

theorem sortPool_perm (ids : List String) (c : String → Nat) :
    List.Perm (sortPool ids c) ids :=
  stableSort_perm _ ids

/-- Destructor for a successful step of `backtrack`. -/
theorem backtrack_elim {ids : List String} {r : Nat} {c : String → Nat}
    {used : List String} {res : List (String × String)}
    (h : backtrack ids (r + 1) c used = some res) :
    ∃ ab rest, ab ∈ candList c used (sortPool ids c) ∧
      backtrack ids r (bump (bump c ab.1) ab.2) (pairKey ab.1 ab.2 :: used) = some rest ∧
      res = ab :: rest := by
  rw [backtrack] at h
  obtain ⟨ab, hmem, hf⟩ := List.exists_of_findSome?_eq_some h
  dsimp only at hf
  split at hf
  · rcases Option.map_eq_some'.mp hf with ⟨rest, hrest, hres⟩
    exact ⟨ab, rest, hmem, hrest, hres.symm⟩
  · exact absurd hf (by simp)

theorem backtrack_zero {ids : List String} {c : String → Nat} {used : List String}
    {res : List (String × String)} (h : backtrack ids 0 c used = some res) : res = [] :=
  (Option.some.inj h).symm

theorem backtrack_length {ids : List String} :
    ∀ {r : Nat} {c : String → Nat} {used : List String} {res : List (String × String)},
      backtrack ids r c used = some res → res.length = r
  | 0, _, _, _, h => by rw [backtrack_zero h]; rfl
  | r + 1, c, used, res, h => by
    obtain ⟨ab, rest, _, hrest, rfl⟩ := backtrack_elim h
    simp [backtrack_length hrest]

theorem backtrack_mem {ids : List String} :
    ∀ {r : Nat} {c : String → Nat} {used : List String} {res : List (String × String)},
      backtrack ids r c used = some res → ∀ p ∈ res,
        p.1 ∈ ids ∧ p.2 ∈ ids ∧ (p.1 = p.2 → 2 ≤ ids.count p.1) ∧ (ids.Nodup → p.1 ≠ p.2)
  | 0, _, _, _, h => by
    rw [backtrack_zero h]
    intro p hp
    simp at hp
  | r + 1, c, used, res, h => by
    obtain ⟨ab, rest, hcand, hrest, rfl⟩ := backtrack_elim h
    intro p hp
    rcases List.mem_cons.mp hp with rfl | hp
    · have hc := candList_mem (show (p.1, p.2) ∈ _ by simpa using hcand)
      have hperm := sortPool_perm ids c
      refine ⟨hperm.mem_iff.mp hc.2.2.1, hperm.mem_iff.mp hc.2.2.2.1, ?_, ?_⟩
      · intro hab
        have := hc.2.2.2.2.1 hab
        rwa [hperm.count_eq] at this
      · intro hnd
        exact hc.2.2.2.2.2 (hperm.nodup_iff.mpr hnd)
    · exact backtrack_mem hrest p hp

theorem backtrack_occ_le4 {ids : List String} :
    ∀ {r : Nat} {c : String → Nat} {used : List String} {res : List (String × String)},
      backtrack ids r c used = some res → ∀ x, c x ≤ 4 →
        c x + (flattenPairs res).count x ≤ 4
  | 0, _, _, _, h => by
    rw [backtrack_zero h]
    intro x hx
    simpa [flattenPairs] using hx
  | r + 1, c, used, res, h => by
    obtain ⟨ab, rest, hcand, hrest, rfl⟩ := backtrack_elim h
    intro x hx
    have hc := candList_mem (show (ab.1, ab.2) ∈ _ by simpa using hcand)
    have hc2 : bump (bump c ab.1) ab.2 x ≤ 4 := by
      rw [bump2_apply]
      by_cases h1 : x = ab.1
      · have hcx : c x < 3 := by rw [h1]; exact hc.1
        by_cases h2 : x = ab.2 <;> [rw [if_pos h1, if_pos h2]; rw [if_pos h1, if_neg h2]] <;> omega
      · by_cases h2 : x = ab.2
        · have hcx : c x < 3 := by rw [h2]; exact hc.2.1
          rw [if_neg h1, if_pos h2]
          omega
        · rw [if_neg h1, if_neg h2]
          omega
    have hIH := backtrack_occ_le4 hrest x hc2
    rw [bump2_apply] at hIH
    rw [flattenPairs_cons, List.count_cons, List.count_cons]
    simp only [beq_iff_eq]
    by_cases h1 : x = ab.1 <;> by_cases h2 : x = ab.2
    · rw [if_pos h1, if_pos h2] at hIH
      rw [if_pos h2.symm, if_pos h1.symm]
      omega
    · rw [if_pos h1, if_neg h2] at hIH
      rw [if_neg (fun hh => h2 hh.symm), if_pos h1.symm]
      omega
    · rw [if_neg h1, if_pos h2] at hIH
      rw [if_pos h2.symm, if_neg (fun hh => h1 hh.symm)]
      omega
    · rw [if_neg h1, if_neg h2] at hIH
      rw [if_neg (fun hh => h2 hh.symm), if_neg (fun hh => h1 hh.symm)]
      omega

theorem backtrack_occ_le3 {ids : List String} (hnd : ids.Nodup) :
    ∀ {r : Nat} {c : String → Nat} {used : List String} {res : List (String × String)},
      backtrack ids r c used = some res → ∀ x, c x ≤ 3 →
        c x + (flattenPairs res).count x ≤ 3
  | 0, _, _, _, h => by
    rw [backtrack_zero h]
    intro x hx
    simpa [flattenPairs] using hx
  | r + 1, c, used, res, h => by
    obtain ⟨ab, rest, hcand, hrest, rfl⟩ := backtrack_elim h
    intro x hx
    have hc := candList_mem (show (ab.1, ab.2) ∈ _ by simpa using hcand)
    have hab : ab.1 ≠ ab.2 := hc.2.2.2.2.2 ((sortPool_perm ids c).nodup_iff.mpr hnd)
    have hc2 : bump (bump c ab.1) ab.2 x ≤ 3 := by
      rw [bump2_apply]
      by_cases h1 : x = ab.1
      · have hcx : c x < 3 := by rw [h1]; exact hc.1
        have h2 : ¬x = ab.2 := fun h2 => hab (h1 ▸ h2 ▸ rfl)
        rw [if_pos h1, if_neg h2]
        omega
      · by_cases h2 : x = ab.2
        · have hcx : c x < 3 := by rw [h2]; exact hc.2.1
          rw [if_neg h1, if_pos h2]
          omega
        · rw [if_neg h1, if_neg h2]
          omega
    have hIH := backtrack_occ_le3 hnd hrest x hc2
    rw [bump2_apply] at hIH
    rw [flattenPairs_cons, List.count_cons, List.count_cons]
    simp only [beq_iff_eq]
    by_cases h1 : x = ab.1 <;> by_cases h2 : x = ab.2
    · rw [if_pos h1, if_pos h2] at hIH
      rw [if_pos h2.symm, if_pos h1.symm]
      omega
    · rw [if_pos h1, if_neg h2] at hIH
      rw [if_neg (fun hh => h2 hh.symm), if_pos h1.symm]
      omega
    · rw [if_neg h1, if_pos h2] at hIH
      rw [if_pos h2.symm, if_neg (fun hh => h1 hh.symm)]
      omega
    · rw [if_neg h1, if_neg h2] at hIH
      rw [if_neg (fun hh => h2 hh.symm), if_neg (fun hh => h1 hh.symm)]
      omega

theorem sum_map_add (f g : α → Nat) : ∀ (l : List α),
    (l.map fun x => f x + g x).sum = (l.map f).sum + (l.map g).sum
  | [] => rfl
  | x :: l => by
    simp [sum_map_add f g l]
    omega

theorem sum_count_indicator (y : String) : ∀ (ids : List String),
    (ids.map fun x => if y = x then 1 else 0).sum = ids.count y
  | [] => rfl
  | x :: ids => by
    rw [List.map_cons, List.sum_cons, sum_count_indicator y ids, List.count_cons]
    simp only [beq_iff_eq]
    by_cases hxy : x = y
    · rw [if_pos hxy, if_pos hxy.symm]
      omega
    · rw [if_neg hxy, if_neg (show ¬(y = x) from fun hh => hxy hh.symm)]
      omega

theorem sum_count_eq_length : ∀ (flat ids : List String), ids.Nodup →
    (∀ y ∈ flat, y ∈ ids) → (ids.map fun x => flat.count x).sum = flat.length
  | [], ids, _, _ => by simp
  | y :: rest, ids, hnd, hmem => by
    have hcong : (ids.map fun x => (y :: rest).count x)
        = ids.map fun x => rest.count x + if y = x then 1 else 0 := by
      apply List.map_congr_left
      intro x _
      rw [List.count_cons]
      simp only [beq_iff_eq]
    rw [hcong, sum_map_add, sum_count_indicator,
      sum_count_eq_length rest ids hnd (fun z hz => hmem z (List.mem_cons_of_mem y hz)),
      List.count_eq_one_of_mem hnd (hmem y (List.mem_cons_self y rest))]
    exact (List.length_cons y rest).symm

theorem sum_le_three_mul : ∀ (l : List Nat), (∀ v ∈ l, v ≤ 3) → l.sum ≤ 3 * l.length
  | [], _ => by simp
  | v :: l, h => by
    have h1 := sum_le_three_mul l (fun w hw => h w (List.mem_cons_of_mem v hw))
    have hv := h v (List.mem_cons_self v l)
    rw [List.sum_cons, List.length_cons]
    omega

theorem all_eq_three : ∀ (l : List Nat), (∀ v ∈ l, v ≤ 3) → l.sum = 3 * l.length →
    ∀ v ∈ l, v = 3
  | [], _, _, v, hv => by simp at hv
  | w :: l, h, hsum, v, hv => by
    have hrest := sum_le_three_mul l (fun u hu => h u (List.mem_cons_of_mem w hu))
    have hw := h w (List.mem_cons_self w l)
    rw [List.sum_cons, List.length_cons] at hsum
    have hw3 : w = 3 := by omega
    rcases List.mem_cons.mp hv with rfl | hv
    · exact hw3
    · exact all_eq_three l (fun u hu => h u (List.mem_cons_of_mem w hu)) (by omega) v hv

theorem mem_flattenPairs {z : String} {opps : List (String × String)} :
    z ∈ flattenPairs opps ↔ ∃ p ∈ opps, z = p.1 ∨ z = p.2 := by
  simp [flattenPairs]

/-- A successful top-level backtracking run gives every non-Duo id
exactly 3 appearances across the 15 opponent pairs. -/
theorem backtrack15_each3 {ids : List String} {opps : List (String × String)}
    (hnd : ids.Nodup) (hlen : ids.length = 10)
    (h : backtrack ids 15 (fun _ => 0) [] = some opps) :
    ∀ x ∈ ids, (flattenPairs opps).count x = 3 := by
  have hlen15 : opps.length = 15 := backtrack_length h
  have hflatlen : (flattenPairs opps).length = 30 := by
    rw [flattenPairs_length, hlen15]
  have hsub : ∀ y ∈ flattenPairs opps, y ∈ ids := by
    intro y hy
    rcases mem_flattenPairs.mp hy with ⟨p, hp, hyp⟩
    have := backtrack_mem h p hp
    rcases hyp with rfl | rfl
    · exact this.1
    · exact this.2.1
  have hsum : (ids.map fun x => (flattenPairs opps).count x).sum = 30 :=
    (sum_count_eq_length _ ids hnd hsub).trans hflatlen
  have hle : ∀ v ∈ ids.map fun x => (flattenPairs opps).count x, v ≤ 3 := by
    intro v hv
    rcases List.mem_map.mp hv with ⟨x, _, rfl⟩
    simpa using backtrack_occ_le3 hnd h x (by omega)
  have h3 : ∀ v ∈ ids.map fun x => (flattenPairs opps).count x, v = 3 := by
    refine all_eq_three _ hle ?_
    rw [hsum, List.length_map, hlen]
  intro x hx
  exact h3 _ (List.mem_map.mpr ⟨x, hx, rfl⟩)

theorem countP_pair_le_flat (x : String) : ∀ (opps : List (String × String)),
    opps.countP (fun p => x = p.1 || x = p.2) ≤ (flattenPairs opps).count x
  | [] => by simp [flattenPairs]
  | p :: opps => by
    have ih := countP_pair_le_flat x opps
    rw [flattenPairs_cons, List.count_cons, List.count_cons, List.countP_cons]
    simp only [beq_iff_eq]
    by_cases h1 : x = p.1
    · rw [if_pos (show (decide (x = p.1) || decide (x = p.2)) = true by simp [h1]),
        if_pos h1.symm]
      omega
    · by_cases h2 : x = p.2
      · rw [if_pos (show (decide (x = p.1) || decide (x = p.2)) = true by simp [h2]),
          if_pos h2.symm, if_neg (show ¬(p.1 = x) from fun hh => h1 hh.symm)]
        omega
      · rw [if_neg (show ¬((decide (x = p.1) || decide (x = p.2)) = true) by simp [h1, h2]),
          if_neg (show ¬(p.2 = x) from fun hh => h2 hh.symm),
          if_neg (show ¬(p.1 = x) from fun hh => h1 hh.symm)]
        omega

theorem countP_pair_eq_flat (x : String) : ∀ (opps : List (String × String)),
    (∀ p ∈ opps, p.1 ≠ p.2) →
    opps.countP (fun p => x = p.1 || x = p.2) = (flattenPairs opps).count x
  | [], _ => by simp [flattenPairs]
  | p :: opps, hd => by
    have hne : p.1 ≠ p.2 := hd p (List.mem_cons_self p opps)
    have ih := countP_pair_eq_flat x opps (fun q hq => hd q (List.mem_cons_of_mem p hq))
    rw [flattenPairs_cons, List.count_cons, List.count_cons, List.countP_cons]
    simp only [beq_iff_eq]
    by_cases h1 : x = p.1
    · have h2 : ¬x = p.2 := fun h2 => hne (h1.symm.trans h2)
      rw [if_pos (show (decide (x = p.1) || decide (x = p.2)) = true by simp [h1]),
        if_neg (show ¬(p.2 = x) from fun hh => h2 hh.symm), if_pos h1.symm]
      omega
    · by_cases h2 : x = p.2
      · rw [if_pos (show (decide (x = p.1) || decide (x = p.2)) = true by simp [h2]),
          if_pos h2.symm, if_neg (show ¬(p.1 = x) from fun hh => h1 hh.symm)]
        omega
      · rw [if_neg (show ¬((decide (x = p.1) || decide (x = p.2)) = true) by simp [h1, h2]),
          if_neg (show ¬(p.2 = x) from fun hh => h2 hh.symm),
          if_neg (show ¬(p.1 = x) from fun hh => h1 hh.symm)]
        omega

/-! ### Round-construction invariants -/

/-- The four slots of one match, in validation order. -/
def gameSlots (m : Game) : List String :=
  [m.team1.a, m.team1.b, m.team2.a, m.team2.b]

theorem roundSlots_eq_flatMap (ms : List Game) : roundSlots ms = ms.flatMap gameSlots := rfl

theorem sublist_flatMap_of_mem {m : α} (f : α → List β) :
    ∀ {ms : List α}, m ∈ ms → List.Sublist (f m) (ms.flatMap f)
  | x :: ms, h => by
    rcases List.mem_cons.mp h with rfl | h
    · simpa using List.sublist_append_left (f m) (ms.flatMap f)
    · have ih := sublist_flatMap_of_mem f h
      simpa using ih.trans (List.sublist_append_right (f x) (ms.flatMap f))

theorem two_mem_le_length {a b : α} : ∀ {l : List α}, a ∈ l → b ∈ l → a ≠ b → 2 ≤ l.length
  | x :: t, ha, hb, hab => by
    rw [List.length_cons]
    rcases List.mem_cons.mp ha with rfl | ha
    · rcases List.mem_cons.mp hb with rfl | hb
      · exact absurd rfl hab
      · have := List.length_pos_of_mem hb
        omega
    · have := List.length_pos_of_mem ha
      omega

theorem removed_ge_two {others : List String} {D M a b : String}
    (ha : a ∈ others) (hb : b ∈ others) (hcnt : a = b → 2 ≤ others.count a) :
    2 ≤ (others.filter fun id => ([D, M, a, b].contains id)).length := by
  by_cases hab : a = b
  · subst hab
    have h1 : 2 ≤ others.count a := hcnt rfl
    have h2 : (others.filter fun id => ([D, M, a, a].contains id)).count a = others.count a :=
      List.count_filter (by simp)
    have h3 := List.count_le_length a (others.filter fun id => ([D, M, a, a].contains id))
    omega
  · exact two_mem_le_length (List.mem_filter.mpr ⟨ha, by simp⟩)
      (List.mem_filter.mpr ⟨hb, by simp⟩) hab

theorem rem_length_le {others : List String} {D M a b : String} (hlen : others.length = 10)
    (ha : a ∈ others) (hb : b ∈ others) (hcnt : a = b → 2 ≤ others.count a) :
    (others.filter fun id => !([D, M, a, b].contains id)).length ≤ 8 := by
  have hperm := (List.filter_append_perm (fun id => ([D, M, a, b].contains id)) others).length_eq
  rw [List.length_append] at hperm
  have h2 := removed_ge_two (D := D) (M := M) ha hb hcnt
  omega

theorem list_eq_four {l : List α} {q0 q1 q2 q3 : α} (hlen : l.length ≤ 4)
    (h0 : l[0]? = some q0) (h1 : l[1]? = some q1) (h2 : l[2]? = some q2)
    (h3 : l[3]? = some q3) : l = [q0, q1, q2, q3] := by
  rcases l with _ | ⟨a, _ | ⟨b, _ | ⟨c, _ | ⟨d, _ | ⟨e, t⟩⟩⟩⟩⟩ <;> simp_all

/-- What one successfully validated round looks like, relative to its
Duo-opponent pair. -/
def RoundOK (D M : String) (others : List String) (opp : String × String) (rd : Round) : Prop :=
  ∃ g8 g9 pad,
    rd.matchList =
      [{ court := 7, team1 := { a := D, b := M }, team2 := { a := opp.1, b := opp.2 },
         score := none }, g8, g9] ∧
    g8.court = 8 ∧ g9.court = 9 ∧
    (roundSlots rd.matchList).Nodup ∧
    (roundSlots rd.matchList).length = 12 ∧
    List.Perm (roundSlots rd.matchList)
      ([D, M, opp.1, opp.2] ++
        (others.filter fun id => !([D, M, opp.1, opp.2].contains id)) ++ pad) ∧
    (pad = [] ∨ pad = [""])

theorem forall2_countP {R : α → β → Prop} {p : α → Bool} {q : β → Bool}
    {l₁ : List α} {l₂ : List β} (h : List.Forall₂ R l₁ l₂)
    (hpq : ∀ a b, R a b → p a = q b) : l₂.countP q = l₁.countP p := by
  induction h with
  | nil => rfl
  | cons hr _ ih => rw [List.countP_cons, List.countP_cons, ih, hpq _ _ hr]

theorem forall2_mem_right {R : α → β → Prop} {l₁ : List α} {l₂ : List β} {b : β}
    (h : List.Forall₂ R l₁ l₂) (hb : b ∈ l₂) : ∃ a ∈ l₁, R a b := by
  induction h with
  | nil => simp at hb
  | cons hr _ ih =>
    rcases List.mem_cons.mp hb with rfl | hb
    · exact ⟨_, List.mem_cons_self _ _, hr⟩
    · rcases ih hb with ⟨a, ha, har⟩
      exact ⟨a, List.mem_cons_of_mem _ ha, har⟩

theorem buildRounds_sound {D M : String} {others : List String} (hlen : others.length = 10) :
    ∀ {opps : List (String × String)} {r0 st : Nat} {rds : List Round},
      (∀ p ∈ opps, p.1 ∈ others ∧ p.2 ∈ others ∧ (p.1 = p.2 → 2 ≤ others.count p.1)) →
      buildRounds D M others opps r0 st = .ok rds →
      List.Forall₂ (RoundOK D M others) opps rds
  | [], r0, st, rds, _, h => by
    simp only [buildRounds] at h
    obtain rfl : rds = [] := by cases h; rfl
    exact List.Forall₂.nil
  | opp :: rest, r0, st, rds, hopp, h => by
    have hop := hopp opp (List.mem_cons_self opp rest)
    simp only [buildRounds] at h
    split at h
    case _ q0 q1 q2 q3 h0 h1 h2 h3 =>
      split at h
      case isTrue hval =>
        set rem := others.filter (fun id => !([D, M, opp.1, opp.2].contains id)) with hremdef
        set pr := pairRemaining rem st with hprdef
        set pq := shuffle pr.1 pr.2 with hpqdef
        cases hrec : buildRounds D M others rest (r0 + 1) pq.2 with
        | error e => rw [hrec] at h; simp [Except.map] at h
        | ok rds2 =>
          rw [hrec] at h
          simp only [Except.map] at h
          obtain rfl : _ :: rds2 = rds := Except.ok.inj h
          refine List.Forall₂.cons ?_
            (buildRounds_sound hlen (fun p hp => hopp p (List.mem_cons_of_mem opp hp)) hrec)
          have hpr1 : pr.1 = chunkPairs (shuffle rem st).1 := by rw [hprdef]; rfl
          have harrlen : (shuffle rem st).1.length = rem.length := (shuffle_perm rem st).length_eq
          have hremlen : rem.length ≤ 8 := by
            rw [hremdef]
            exact rem_length_le hlen hop.1 hop.2.1 hop.2.2
          have hpplen : pq.1.length ≤ 4 := by
            have h4 := (shuffle_perm pr.1 pr.2).length_eq
            rw [hpr1, chunkPairs_length] at h4
            rw [hpqdef, hpr1, h4, harrlen]
            omega
          have hpp4 : pq.1 = [q0, q1, q2, q3] := list_eq_four hpplen h0 h1 h2 h3
          have hflat : ∃ pad, List.Perm (flattenPairs [q0, q1, q2, q3]) (rem ++ pad) ∧
              (pad = [] ∨ pad = [""]) := by
            have hq : List.Perm (flattenPairs [q0, q1, q2, q3])
                (flattenPairs (chunkPairs (shuffle rem st).1)) := by
              rw [← hpp4, ← hpr1]
              exact flattenPairs_perm (shuffle_perm pr.1 pr.2)
            rcases chunkPairs_flatten (shuffle rem st).1 with hch | hch
            · refine ⟨[], ?_, .inl rfl⟩
              rw [List.append_nil]
              refine hq.trans ?_
              rw [hch]
              exact shuffle_perm rem st
            · refine ⟨[""], ?_, .inr rfl⟩
              refine hq.trans ?_
              rw [hch]
              exact (shuffle_perm rem st).append_right [""]
          rcases hflat with ⟨pad, hpadperm, hpad⟩
          refine ⟨{ court := 8, team1 := { a := q0.1, b := q0.2 },
                    team2 := { a := q1.1, b := q1.2 }, score := none },
                  { court := 9, team1 := { a := q2.1, b := q2.2 },
                    team2 := { a := q3.1, b := q3.2 }, score := none },
                  pad, rfl, rfl, rfl, hval.1, hval.2, ?_, hpad⟩
          have hslots : roundSlots
              [{ court := 7, team1 := { a := D, b := M },
                 team2 := { a := opp.1, b := opp.2 }, score := none },
               { court := 8, team1 := { a := q0.1, b := q0.2 },
                 team2 := { a := q1.1, b := q1.2 }, score := none },
               { court := 9, team1 := { a := q2.1, b := q2.2 },
                 team2 := { a := q3.1, b := q3.2 }, score := none }]
              = [D, M, opp.1, opp.2] ++ flattenPairs [q0, q1, q2, q3] := rfl
          rw [hslots, List.append_assoc]
          refine List.Perm.append_left [D, M, opp.1, opp.2] ?_
          rw [← hremdef]
          exact hpadperm
      case isFalse => simp at h
    case _ => simp at h

theorem countP_beq_or {a b : String} (hab : a ≠ b) : ∀ (l : List String),
    l.countP (fun x => x == a || x == b) = l.count a + l.count b
  | [] => by simp
  | x :: l => by
    have ih := countP_beq_or hab l
    rw [List.countP_cons, List.count_cons, List.count_cons]
    by_cases hxa : x = a
    · subst hxa
      simp [ih, hab]
      omega
    · by_cases hxb : x = b
      · subst hxb
        simp [ih, hxa]
        omega
      · simp [ih, hxa, hxb]

theorem rem_length_eq {others : List String} {D M a b : String} (hnd : others.Nodup)
    (hlen : others.length = 10) (hDM : ∀ x ∈ others, x ≠ D ∧ x ≠ M)
    (ha : a ∈ others) (hb : b ∈ others) (hab : a ≠ b) :
    (others.filter fun id => !([D, M, a, b].contains id)).length = 8 := by
  have hperm := (List.filter_append_perm (fun id => ([D, M, a, b].contains id)) others).length_eq
  rw [List.length_append] at hperm
  have hcongr : others.countP (fun id => ([D, M, a, b].contains id))
      = others.countP (fun x => x == a || x == b) := by
    apply List.countP_congr
    intro x hx
    have hD := (hDM x hx).1
    have hM := (hDM x hx).2
    simp [hD, hM]
  have hfl : (others.filter fun id => ([D, M, a, b].contains id)).length = 2 := by
    rw [← List.countP_eq_length_filter, hcongr, countP_beq_or hab,
      List.count_eq_one_of_mem hnd ha, List.count_eq_one_of_mem hnd hb]
  omega

theorem exists_four {l : List α} (h : l.length = 4) : ∃ a b c d, l = [a, b, c, d] := by
  rcases l with _ | ⟨a, _ | ⟨b, _ | ⟨c, _ | ⟨d, _ | ⟨e, t⟩⟩⟩⟩⟩ <;> simp_all

theorem buildRounds_complete {D M : String} {others : List String}
    (hnd : others.Nodup) (hlen : others.length = 10)
    (hDM : ∀ x ∈ others, x ≠ D ∧ x ≠ M) (hD : D ≠ M) :
    ∀ (opps : List (String × String)) (r0 st : Nat),
      (∀ p ∈ opps, p.1 ∈ others ∧ p.2 ∈ others ∧ p.1 ≠ p.2) →
      ∃ rds, buildRounds D M others opps r0 st = .ok rds
  | [], r0, st, _ => ⟨[], rfl⟩
  | opp :: rest, r0, st, hopp => by
    have hop := hopp opp (List.mem_cons_self opp rest)
    have hremlen : (others.filter fun id => !([D, M, opp.1, opp.2].contains id)).length = 8 :=
      rem_length_eq hnd hlen hDM hop.1 hop.2.1 hop.2.2
    set rem := others.filter fun id => !([D, M, opp.1, opp.2].contains id) with hremdef
    set pr := pairRemaining rem st with hprdef
    set pq := shuffle pr.1 pr.2 with hpqdef
    have hpr1 : pr.1 = chunkPairs (shuffle rem st).1 := by rw [hprdef]; rfl
    have harrlen : (shuffle rem st).1.length = rem.length := (shuffle_perm rem st).length_eq
    have hpqlen : pq.1.length = 4 := by
      have h4 := (shuffle_perm pr.1 pr.2).length_eq
      rw [hpr1, chunkPairs_length] at h4
      rw [hpqdef, hpr1, h4, harrlen, hremlen]
    obtain ⟨w, x, y, z, hwxyz⟩ := exists_four hpqlen
    -- the courts-8/9 slots are exactly a permutation of the 8 remaining ids
    have hflat : List.Perm (flattenPairs [w, x, y, z]) rem := by
      have hq : List.Perm (flattenPairs [w, x, y, z])
          (flattenPairs (chunkPairs (shuffle rem st).1)) := by
        rw [← hwxyz, ← hpr1]
        exact flattenPairs_perm (shuffle_perm pr.1 pr.2)
      refine hq.trans ?_
      rw [chunkPairs_flatten_even (shuffle rem st).1 (by rw [harrlen, hremlen])]
      exact shuffle_perm rem st
    have hremsub : ∀ u ∈ rem, u ∈ others ∧ ¬([D, M, opp.1, opp.2].contains u) = true := by
      intro u hu
      rw [hremdef] at hu
      rcases List.mem_filter.mp hu with ⟨h1, h2⟩
      exact ⟨h1, by simpa using h2⟩
    have hndfront : List.Nodup ([D, M, opp.1, opp.2] ++ rem) := by
      have haD := (hDM opp.1 hop.1).1
      have haM := (hDM opp.1 hop.1).2
      have hbD := (hDM opp.2 hop.2.1).1
      have hbM := (hDM opp.2 hop.2.1).2
      rw [List.nodup_append]
      refine ⟨?_, hremdef ▸ hnd.filter _, ?_⟩
      · have hDa : D ≠ opp.1 := fun h => haD h.symm
        have hDb : D ≠ opp.2 := fun h => hbD h.symm
        have hMa : M ≠ opp.1 := fun h => haM h.symm
        have hMb : M ≠ opp.2 := fun h => hbM h.symm
        simp [hD, hDa, hDb, hMa, hMb, hop.2.2]
      · intro u hu hurem
        simp only [List.mem_cons, List.not_mem_nil, or_false] at hu
        rcases hu with rfl | rfl | rfl | rfl <;> exact (hremsub _ hurem).2 (by simp)
    have hval : (roundSlots
        [{ court := 7, team1 := { a := D, b := M },
           team2 := { a := opp.1, b := opp.2 }, score := none },
         { court := 8, team1 := { a := w.1, b := w.2 },
           team2 := { a := x.1, b := x.2 }, score := none },
         { court := 9, team1 := { a := y.1, b := y.2 },
           team2 := { a := z.1, b := z.2 }, score := none }]).Nodup ∧
        (roundSlots
        [{ court := 7, team1 := { a := D, b := M },
           team2 := { a := opp.1, b := opp.2 }, score := none },
         { court := 8, team1 := { a := w.1, b := w.2 },
           team2 := { a := x.1, b := x.2 }, score := none },
         { court := 9, team1 := { a := y.1, b := y.2 },
           team2 := { a := z.1, b := z.2 }, score := none }]).length = 12 := by
      have hslots : roundSlots
          [{ court := 7, team1 := { a := D, b := M },
             team2 := { a := opp.1, b := opp.2 }, score := none },
           { court := 8, team1 := { a := w.1, b := w.2 },
             team2 := { a := x.1, b := x.2 }, score := none },
           { court := 9, team1 := { a := y.1, b := y.2 },
             team2 := { a := z.1, b := z.2 }, score := none }]
          = [D, M, opp.1, opp.2] ++ flattenPairs [w, x, y, z] := rfl
      have hperm2 : List.Perm ([D, M, opp.1, opp.2] ++ flattenPairs [w, x, y, z])
          ([D, M, opp.1, opp.2] ++ rem) := List.Perm.append_left _ hflat
      constructor
      · rw [hslots]
        exact hperm2.nodup_iff.mpr hndfront
      · rw [hslots, hperm2.length_eq, List.length_append, hremlen]
        rfl
    obtain ⟨rds2, hrec⟩ := buildRounds_complete hnd hlen hDM hD rest (r0 + 1) pq.2
      (fun p hp => hopp p (List.mem_cons_of_mem opp hp))
    refine ⟨{ round := r0 + 1, matchList :=
        [{ court := 7, team1 := { a := D, b := M },
           team2 := { a := opp.1, b := opp.2 }, score := none },
         { court := 8, team1 := { a := w.1, b := w.2 },
           team2 := { a := x.1, b := x.2 }, score := none },
         { court := 9, team1 := { a := y.1, b := y.2 },
           team2 := { a := z.1, b := z.2 }, score := none }] } :: rds2, ?_⟩
    simp only [buildRounds]
    rw [← hremdef, ← hprdef, ← hpqdef, hwxyz]
    simp only [List.getElem?_cons_zero, List.getElem?_cons_succ]
    rw [if_pos hval, hrec]
    rfl

/-! ### `generateSchedule` success analysis -/

theorem buildBalancedDmOpponents_ok {ids : List String} {opps : List (String × String)} :
    buildBalancedDmOpponents ids = .ok opps ↔ backtrack ids 15 (fun _ => 0) [] = some opps := by
  unfold buildBalancedDmOpponents
  cases hb : backtrack ids 15 (fun _ => 0) [] <;> simp

theorem otherIds_mem {players : List Player} {D M u : String}
    (hu : u ∈ otherIds players D M) : u ≠ D ∧ u ≠ M := by
  rcases List.mem_map.mp hu with ⟨p, hp, rfl⟩
  rcases List.mem_filter.mp hp with ⟨_, hpred⟩
  simpa using hpred

theorem generateSchedule_ok_elim {players : List Player} {seed : Nat} {rds : List Round}
    (h : generateSchedule players seed = .ok rds) :
    ∃ D M opps, players.length = 12 ∧ duoIds players = [D, M] ∧
      (otherIds players D M).length = 10 ∧
      backtrack (otherIds players D M) 15 (fun _ => 0) [] = some opps ∧
      buildRounds D M (otherIds players D M) opps 0 seed = .ok rds := by
  simp only [generateSchedule] at h
  split at h
  case isTrue => exact absurd h (by simp)
  case isFalse hl =>
    split at h
    · rename_i D M hduo
      split at h
      case isTrue => exact absurd h (by simp)
      case isFalse hol =>
        split at h
        · exact absurd h (by simp)
        · rename_i opps heq
          exact ⟨D, M, opps, by omega, hduo, by omega,
            buildBalancedDmOpponents_ok.mp heq, h⟩
    · exact absurd h (by simp)

theorem forall2_mem_left {R : α → β → Prop} {l₁ : List α} {l₂ : List β} {a : α}
    (h : List.Forall₂ R l₁ l₂) (ha : a ∈ l₁) : ∃ b ∈ l₂, R a b := by
  induction h with
  | nil => simp at ha
  | cons hr _ ih =>
    rcases List.mem_cons.mp ha with rfl | ha
    · exact ⟨_, List.mem_cons_self _ _, hr⟩
    · rcases ih ha with ⟨b, hb, hbr⟩
      exact ⟨b, List.mem_cons_of_mem _ hb, hbr⟩

/-- A successful generation forces the non-Duo ids to be pairwise
distinct: a duplicated id would have to sit on court 7 in all 15 rounds
but is capped at 4 appearances by the search. -/
theorem success_others_nodup {players : List Player} {rds : List Round}
    {D M : String} {opps : List (String × String)}
    (holen : (otherIds players D M).length = 10)
    (hbt : backtrack (otherIds players D M) 15 (fun _ => 0) [] = some opps)
    (hfa : List.Forall₂ (RoundOK D M (otherIds players D M)) opps rds) :
    (otherIds players D M).Nodup := by
  set others := otherIds players D M with hothers
  rw [List.nodup_iff_count_le_one]
  by_contra hcnt
  push_neg at hcnt
  obtain ⟨x, hx2⟩ := hcnt
  have hx2 : 2 ≤ others.count x := hx2
  have hxmem : x ∈ others := List.count_pos_iff.mp (by omega)
  have hxDM := otherIds_mem (hothers ▸ hxmem)
  -- every opponent pair must contain x
  have hall : ∀ p ∈ opps, (x = p.1 ∨ x = p.2) := by
    intro p hp
    by_contra hnx
    push_neg at hnx
    rcases forall2_mem_left hfa hp with ⟨rd, _, hok⟩
    rcases hok with ⟨g8, g9, pad, hml, _, _, hnodup, _, hperm, hpad⟩
    have hcount : (roundSlots rd.matchList).count x =
        ([D, M, p.1, p.2] ++ (others.filter fun id => !([D, M, p.1, p.2].contains id)) ++ pad).count x :=
      hperm.count_eq x
    have hfc : (others.filter fun id => !([D, M, p.1, p.2].contains id)).count x
        = others.count x := by
      apply List.count_filter
      simp [hxDM.1, hxDM.2, hnx.1, hnx.2]
    have hle1 : (roundSlots rd.matchList).count x ≤ 1 :=
      List.nodup_iff_count_le_one.mp hnodup x
    rw [List.count_append, List.count_append, hfc] at hcount
    omega
  have hcountP : opps.countP (fun p => x = p.1 || x = p.2) = opps.length := by
    rw [List.countP_eq_length]
    intro p hp
    simpa using hall p hp
  have h15 : opps.length = 15 := backtrack_length hbt
  have hle := countP_pair_le_flat x opps
  have hocc := backtrack_occ_le4 hbt x (by omega)
  omega

theorem two_elem_perm {a b : α} {l : List α} (hlen : l.length = 2)
    (ha : a ∈ l) (hb : b ∈ l) (hab : a ≠ b) : List.Perm l [a, b] := by
  obtain ⟨x, y, rfl⟩ := List.length_eq_two.mp hlen
  simp only [List.mem_cons, List.mem_singleton, List.not_mem_nil, or_false] at ha hb
  rcases ha with rfl | rfl
  · rcases hb with rfl | rfl
    · exact absurd rfl hab
    · exact List.Perm.refl _
  · rcases hb with rfl | rfl
    · exact List.Perm.swap _ _ _
    · exact absurd rfl hab

/-- The multiset of the 12 player ids is `[D, M]` plus the 10 non-Duo
ids. -/
theorem duo_others_perm {players : List Player} {D M : String}
    (hlen : players.length = 12) (hduo : duoIds players = [D, M])
    (holen : (otherIds players D M).length = 10) (hDM : D ≠ M) :
    List.Perm (players.map (·.id)) ([D, M] ++ otherIds players D M) := by
  have hpart := List.filter_append_perm (fun p => p.id ≠ D && p.id ≠ M) players
  have hmap := hpart.map (·.id)
  rw [List.map_append] at hmap
  set A := (players.filter fun p => !(p.id ≠ D && p.id ≠ M)).map (·.id) with hA
  have hAlen : A.length = 2 := by
    have h1 := hpart.length_eq
    rw [List.length_append] at h1
    have h2 : (players.filter fun p => p.id ≠ D && p.id ≠ M).length = 10 := by
      have := holen
      rwa [otherIds, List.length_map] at this
    rw [hA, List.length_map]
    omega
  have hDmem : D ∈ A := by
    have : D ∈ duoIds players := by rw [hduo]; exact List.mem_cons_self D [M]
    rcases List.mem_map.mp this with ⟨p, hp, rfl⟩
    have hpp : p ∈ players := List.mem_of_mem_filter hp
    refine List.mem_map.mpr ⟨p, List.mem_filter.mpr ⟨hpp, ?_⟩, rfl⟩
    simp
  have hMmem : M ∈ A := by
    have : M ∈ duoIds players := by rw [hduo]; exact List.mem_cons_of_mem D (List.mem_cons_self M [])
    rcases List.mem_map.mp this with ⟨p, hp, rfl⟩
    have hpp : p ∈ players := List.mem_of_mem_filter hp
    refine List.mem_map.mpr ⟨p, List.mem_filter.mpr ⟨hpp, ?_⟩, rfl⟩
    simp
  have hA2 : List.Perm A [D, M] := two_elem_perm hAlen hDmem hMmem hDM
  have hother : otherIds players D M = (players.filter fun p => p.id ≠ D && p.id ≠ M).map (·.id) :=
    rfl
  rw [← hother] at hmap
  exact hmap.symm.trans ((List.Perm.append_left _ hA2).trans List.perm_append_comm)

/-- Removing a round's two Duo opponents from a duplicate-free `others`
splits it, up to permutation, into `[a, b]` and the filtered remainder. -/
theorem filter_two_perm {others : List String} {D M a b : String} (hnd : others.Nodup)
    (hDM : ∀ x ∈ others, x ≠ D ∧ x ≠ M) (ha : a ∈ others) (hb : b ∈ others) (hab : a ≠ b) :
    List.Perm others ([a, b] ++ others.filter fun id => !([D, M, a, b].contains id)) := by
  rw [List.perm_iff_count]
  intro v
  rw [List.count_append]
  by_cases hva : v = a
  · subst hva
    have h1 : others.count v = 1 := List.count_eq_one_of_mem hnd ha
    have h2 : (others.filter fun id => !([D, M, v, b].contains id)).count v = 0 := by
      rw [List.count_eq_zero]
      intro hmem
      have hpred := (List.mem_filter.mp hmem).2
      simp at hpred
    have h3 : ([v, b] : List String).count v = 1 := by
      rw [List.count_cons, List.count_cons]
      simp [Ne.symm hab]
    omega
  · by_cases hvb : v = b
    · subst hvb
      have h1 : others.count v = 1 := List.count_eq_one_of_mem hnd hb
      have h2 : (others.filter fun id => !([D, M, a, v].contains id)).count v = 0 := by
        rw [List.count_eq_zero]
        intro hmem
        have hpred := (List.mem_filter.mp hmem).2
        simp at hpred
      have h3 : ([a, v] : List String).count v = 1 := by
        rw [List.count_cons, List.count_cons]
        simp [hab]
      omega
    · have h3 : ([a, b] : List String).count v = 0 := by
        rw [List.count_eq_zero]
        simp [hva, hvb]
      by_cases hvo : v ∈ others
      · have hvDM := hDM v hvo
        have h2 : (others.filter fun id => !([D, M, a, b].contains id)).count v
            = others.count v :=
          List.count_filter (by simp [hvDM.1, hvDM.2, hva, hvb])
        omega
      · have h1 : others.count v = 0 := List.count_eq_zero.mpr hvo
        have h2 := (List.filter_sublist (p := fun id => !([D, M, a, b].contains id)) others).count_le v
        omega

/-! ### Concrete inputs used by the claims -/

/-- The demo roster of the application. -/
def defaultPlayers : List Player :=
  [{ id := "p1", name := "Daniel" }, { id := "p2", name := "Macho" },
   { id := "p3", name := "Player 3" }, { id := "p4", name := "Player 4" },
   { id := "p5", name := "Player 5" }, { id := "p6", name := "Player 6" },
   { id := "p7", name := "Player 7" }, { id := "p8", name := "Player 8" },
   { id := "p9", name := "Player 9" }, { id := "p10", name := "Player 10" },
   { id := "p11", name := "Player 11" }, { id := "p12", name := "Player 12" }]

/-- The schedule generated for the demo roster at seed 42. -/
def sched42 : List Round := (generateSchedule defaultPlayers 42).toOption.getD []

/-- The first round of `sched42`. -/
def sched42head : Round := sched42.headD { round := 0, matchList := [] }

/-- A roster whose two Duo-named players share one id. -/
def dupPlayers : List Player :=
  [{ id := "p1", name := "Daniel" }, { id := "p1", name := "Macho" },
   { id := "p3", name := "Player 3" }, { id := "p4", name := "Player 4" },
   { id := "p5", name := "Player 5" }, { id := "p6", name := "Player 6" },
   { id := "p7", name := "Player 7" }, { id := "p8", name := "Player 8" },
   { id := "p9", name := "Player 9" }, { id := "p10", name := "Player 10" },
   { id := "p11", name := "Player 11" }, { id := "p12", name := "Player 12" }]

/-- A roster with two players named Daniel and nobody named Macho. -/
def twoDaniels : List Player :=
  [{ id := "p1", name := "Daniel" }, { id := "p2", name := "Daniel" },
   { id := "p3", name := "Player 3" }, { id := "p4", name := "Player 4" },
   { id := "p5", name := "Player 5" }, { id := "p6", name := "Player 6" },
   { id := "p7", name := "Player 7" }, { id := "p8", name := "Player 8" },
   { id := "p9", name := "Player 9" }, { id := "p10", name := "Player 10" },
   { id := "p11", name := "Player 11" }, { id := "p12", name := "Player 12" }]

/-- The schedule generated for `twoDaniels` at the default seed. -/
def twoDanielsSched : List Round := (generateSchedule twoDaniels 20251016).toOption.getD []

/-! ### Claims -/

/-- C1: on every input of 12 players and seed on which `generateSchedule`
succeeds, every one of the 15 rounds has a court-7 match whose `team1` is
the Duo pair, and each of the 10 non-Duo players appears in the court-7
opposing team in exactly 3 of the 15 rounds. -/
theorem claim1_duo_balance (players : List Player) (seed : Nat) (rds : List Round)
    (h : generateSchedule players seed = .ok rds) :
    rds.length = 15 ∧
    ∀ D M, duoIds players = [D, M] →
      (∀ rd ∈ rds, ∃ g ∈ rd.matchList, g.court = 7 ∧ g.team1 = { a := D, b := M }) ∧
      ∀ x ∈ otherIds players D M,
        (rds.countP fun rd => rd.matchList.any fun g =>
          g.court == 7 && (g.team2.a == x || g.team2.b == x)) = 3 := by
  obtain ⟨D0, M0, opps, hp12, hduo0, holen, hbt, hbr⟩ := generateSchedule_ok_elim h
  have hopp : ∀ p ∈ opps, p.1 ∈ otherIds players D0 M0 ∧ p.2 ∈ otherIds players D0 M0 ∧
      (p.1 = p.2 → 2 ≤ (otherIds players D0 M0).count p.1) := fun p hp =>
    ⟨(backtrack_mem hbt p hp).1, (backtrack_mem hbt p hp).2.1, (backtrack_mem hbt p hp).2.2.1⟩
  have hfa := buildRounds_sound holen hopp hbr
  have hnd := success_others_nodup holen hbt hfa
  have hlen15 : rds.length = 15 := by
    rw [← hfa.length_eq]
    exact backtrack_length hbt
  refine ⟨hlen15, ?_⟩
  intro D M hduo
  obtain ⟨rfl, rfl⟩ : D = D0 ∧ M = M0 := by
    have := hduo0.symm.trans hduo
    simp at this
    exact ⟨this.1.symm, this.2.symm⟩
  constructor
  · intro rd hrd
    obtain ⟨p, hp, hok⟩ := forall2_mem_right hfa hrd
    obtain ⟨g8, g9, pad, hml, _⟩ := hok
    refine ⟨_, by rw [hml]; exact List.mem_cons_self _ _, rfl, rfl⟩
  · intro x hx
    have hpair : ∀ p ∈ opps, p.1 ≠ p.2 := fun p hp => (backtrack_mem hbt p hp).2.2.2 hnd
    have hcp : (rds.countP fun rd => rd.matchList.any fun g =>
        g.court == 7 && (g.team2.a == x || g.team2.b == x))
        = opps.countP (fun p => x = p.1 || x = p.2) := by
      refine forall2_countP hfa ?_
      intro p rd hok
      obtain ⟨g8, g9, pad, hml, hc8, hc9, _⟩ := hok
      rw [hml]
      simp only [List.any_cons, List.any_nil, hc8, hc9]
      by_cases h1 : x = p.1
      · subst h1
        simp
      · by_cases h2 : x = p.2
        · subst h2
          simp
        · have h1' : ¬p.1 = x := fun hh => h1 hh.symm
          have h2' : ¬p.2 = x := fun hh => h2 hh.symm
          simp [h1, h2, h1', h2']
    rw [hcp, countP_pair_eq_flat x opps hpair]
    exact backtrack15_each3 hnd holen hbt x hx

/-- C1 witness at the demo roster and seed 42. -/
theorem claim1_witness :
    generateSchedule defaultPlayers 42 = .ok sched42 ∧ sched42.length = 15 ∧
    (sched42.countP fun rd => rd.matchList.any fun g =>
      g.court == 7 && (g.team2.a == "p3" || g.team2.b == "p3")) = 3 := by
  have hgen : generateSchedule defaultPlayers 42 = .ok sched42 := by rfl
  have h := claim1_duo_balance defaultPlayers 42 sched42 hgen
  exact ⟨hgen, h.1, (h.2 "p1" "p2" (by decide)).2 "p3" (by decide)⟩

/-- C2: on every successful run, the four ids of each match are pairwise
distinct and each round's 12 slots are exactly the 12 input players' ids,
once each. -/
theorem claim2_round_coverage (players : List Player) (seed : Nat) (rds : List Round)
    (h : generateSchedule players seed = .ok rds) :
    (players.map (·.id)).Nodup ∧
    ∀ rd ∈ rds, rd.matchList.length = 3 ∧
      (∀ g ∈ rd.matchList, [g.team1.a, g.team1.b, g.team2.a, g.team2.b].Nodup) ∧
      List.Perm (roundSlots rd.matchList) (players.map (·.id)) := by
  obtain ⟨D, M, opps, hp12, hduo, holen, hbt, hbr⟩ := generateSchedule_ok_elim h
  have hopp : ∀ p ∈ opps, p.1 ∈ otherIds players D M ∧ p.2 ∈ otherIds players D M ∧
      (p.1 = p.2 → 2 ≤ (otherIds players D M).count p.1) := fun p hp =>
    ⟨(backtrack_mem hbt p hp).1, (backtrack_mem hbt p hp).2.1, (backtrack_mem hbt p hp).2.2.1⟩
  have hfa := buildRounds_sound holen hopp hbr
  have hnd := success_others_nodup holen hbt hfa
  have hDM : ∀ x ∈ otherIds players D M, x ≠ D ∧ x ≠ M := fun x hx => otherIds_mem hx
  -- D ≠ M from the first validated round
  have hDne : D ≠ M := by
    have h15 : opps.length = 15 := backtrack_length hbt
    rcases opps with _ | ⟨p0, opps'⟩
    · simp at h15
    · rcases hfa with _ | ⟨hok, _⟩
      obtain ⟨g8, g9, pad, hml, _, _, hnodup, _⟩ := hok
      rw [hml, roundSlots_eq_flatMap] at hnodup
      simp only [List.flatMap_cons, List.flatMap_nil, gameSlots, List.cons_append,
        List.nil_append, List.append_nil] at hnodup
      rcases List.nodup_cons.mp hnodup with ⟨hhd, _⟩
      intro hDMeq
      exact hhd (hDMeq ▸ List.mem_cons_self M _)
  have hperm12 := duo_others_perm hp12 hduo holen hDne
  have hfront : List.Nodup ([D, M] ++ otherIds players D M) := by
    rw [List.nodup_append]
    refine ⟨by simp [hDne], hnd, ?_⟩
    intro u hu hu2
    have := otherIds_mem hu2
    simp only [List.mem_cons, List.not_mem_nil, or_false] at hu
    rcases hu with rfl | rfl
    · exact this.1 rfl
    · exact this.2 rfl
  refine ⟨hperm12.nodup_iff.mpr hfront, ?_⟩
  intro rd hrd
  obtain ⟨p, hp, hok⟩ := forall2_mem_right hfa hrd
  obtain ⟨g8, g9, pad, hml, hc8, hc9, hnodup, hlen12, hperm, hpad⟩ := hok
  have hpfacts := backtrack_mem hbt p hp
  have hpne : p.1 ≠ p.2 := hpfacts.2.2.2 hnd
  refine ⟨by rw [hml]; rfl, ?_, ?_⟩
  · intro g hg
    have hsub : List.Sublist (gameSlots g) (roundSlots rd.matchList) := by
      rw [roundSlots_eq_flatMap]
      exact sublist_flatMap_of_mem gameSlots hg
    exact hnodup.sublist hsub
  · have hremlen : ((otherIds players D M).filter fun id =>
        !([D, M, p.1, p.2].contains id)).length = 8 :=
      rem_length_eq hnd holen hDM hpfacts.1 hpfacts.2.1 hpne
    have hpadnil : pad = [] := by
      rcases hpad with rfl | rfl
      · rfl
      · exfalso
        have hle := hperm.length_eq
        rw [hlen12, List.length_append, List.length_append, hremlen] at hle
        simp at hle
    subst hpadnil
    rw [List.append_nil] at hperm
    have hft := filter_two_perm hnd hDM hpfacts.1 hpfacts.2.1 hpne
    have hperm2 : List.Perm
        ([D, M, p.1, p.2] ++ ((otherIds players D M).filter fun id =>
          !([D, M, p.1, p.2].contains id)))
        ([D, M] ++ otherIds players D M) := List.Perm.append_left [D, M] hft.symm
    exact hperm.trans (hperm2.trans hperm12.symm)

/-- C2 witness at the demo roster and seed 42: round 1's slots are a
permutation of the 12 player ids. -/
theorem claim2_witness :
    generateSchedule defaultPlayers 42 = .ok sched42 ∧ sched42head ∈ sched42 ∧
    List.Perm (roundSlots sched42head.matchList) (defaultPlayers.map (·.id)) := by
  have hgen : generateSchedule defaultPlayers 42 = .ok sched42 := by rfl
  have hmem : sched42head ∈ sched42 := by decide
  have h := claim2_round_coverage defaultPlayers 42 sched42 hgen
  exact ⟨hgen, hmem, (h.2 sched42head hmem).2.2⟩

/-- C3 counterexample: on a 12-player roster whose two Duo players share
the id `"p1"`, all four error conditions named by the claim are absent —
12 players, exactly 2 Duo-rule matches, exactly 10 non-Duo players, and a
successful balancing search — yet `generateSchedule` still throws (the
internal round-validation error), so the claimed "exactly when" is
false. -/
theorem claim3_counterexample :
    dupPlayers.length = 12 ∧
    duoIds dupPlayers = ["p1", "p1"] ∧
    (otherIds dupPlayers "p1" "p1").length = 10 ∧
    (buildBalancedDmOpponents (otherIds dupPlayers "p1" "p1")).isOk = true ∧
    generateSchedule dupPlayers 42 = .error "Internal round construction error at round 1" := by
  refine ⟨by decide, by decide, by decide, by decide, by rfl⟩

/-- C3 (amended): for players with pairwise-distinct ids — which §3 of
the data model requires (`id: unique string`) — generation succeeds
exactly when the player count is 12, the Duo-name rule matches exactly 2
players, the non-Duo count is 10 and the balancing search finds an
assignment; on success the schedule is complete with 15 rounds and no
partial output. -/
theorem claim3_error_iff (players : List Player) (seed : Nat)
    (hids : (players.map (·.id)).Nodup) :
    ((generateSchedule players seed).isOk = true ↔
      players.length = 12 ∧ ∃ D M, duoIds players = [D, M] ∧
        (otherIds players D M).length = 10 ∧
        (buildBalancedDmOpponents (otherIds players D M)).isOk = true) ∧
    ∀ rds, generateSchedule players seed = .ok rds → rds.length = 15 := by
  constructor
  · constructor
    · intro hOk
      cases hgen : generateSchedule players seed with
      | error e => rw [hgen] at hOk; simp [Except.isOk, Except.toBool] at hOk
      | ok rds =>
        obtain ⟨D, M, opps, h12, hduo, holen, hbt, _⟩ := generateSchedule_ok_elim hgen
        exact ⟨h12, D, M, hduo, holen, by rw [buildBalancedDmOpponents_ok.mpr hbt]; rfl⟩
    · rintro ⟨h12, D, M, hduo, holen, hbbok⟩
      obtain ⟨opps, hbb⟩ : ∃ opps,
          buildBalancedDmOpponents (otherIds players D M) = .ok opps := by
        cases hb : buildBalancedDmOpponents (otherIds players D M) with
        | error e => rw [hb] at hbbok; simp [Except.isOk, Except.toBool] at hbbok
        | ok opps => exact ⟨opps, rfl⟩
      have hbt := buildBalancedDmOpponents_ok.mp hbb
      have hnd : (otherIds players D M).Nodup := by
        have hsub : List.Sublist (otherIds players D M) (players.map (·.id)) := by
          unfold otherIds
          exact (List.filter_sublist players).map (·.id)
        exact hids.sublist hsub
      have hDne : D ≠ M := by
        have hsub : List.Sublist (duoIds players) (players.map (·.id)) := by
          unfold duoIds
          exact (List.filter_sublist players).map (·.id)
        have hdd := hids.sublist hsub
        rw [hduo] at hdd
        rcases List.nodup_cons.mp hdd with ⟨hnin, _⟩
        intro hDMeq
        exact hnin (hDMeq ▸ List.mem_cons_self M [])
      have hDM : ∀ x ∈ otherIds players D M, x ≠ D ∧ x ≠ M := fun x hx => otherIds_mem hx
      have hopp : ∀ p ∈ opps, p.1 ∈ otherIds players D M ∧ p.2 ∈ otherIds players D M ∧
          p.1 ≠ p.2 := fun p hp =>
        ⟨(backtrack_mem hbt p hp).1, (backtrack_mem hbt p hp).2.1,
          (backtrack_mem hbt p hp).2.2.2 hnd⟩
      obtain ⟨rds, hbr⟩ := buildRounds_complete hnd holen hDM hDne opps 0 seed hopp
      have h12n : ¬players.length ≠ 12 := by omega
      have holenn : ¬(otherIds players D M).length ≠ 10 := by omega
      have hgen : generateSchedule players seed = .ok rds := by
        simp only [generateSchedule, hduo, hbb, if_neg h12n, if_neg holenn]
        exact hbr
      rw [hgen]
      rfl
  · intro rds hok
    obtain ⟨D, M, opps, _, _, holen, hbt, hbr⟩ := generateSchedule_ok_elim hok
    have hopp : ∀ p ∈ opps, p.1 ∈ otherIds players D M ∧ p.2 ∈ otherIds players D M ∧
        (p.1 = p.2 → 2 ≤ (otherIds players D M).count p.1) := fun p hp =>
      ⟨(backtrack_mem hbt p hp).1, (backtrack_mem hbt p hp).2.1, (backtrack_mem hbt p hp).2.2.1⟩
    have hfa := buildRounds_sound holen hopp hbr
    rw [← hfa.length_eq]
    exact backtrack_length hbt

/-- C3 witness: the demo roster has distinct ids and satisfies the
success conditions, so generation succeeds. -/
theorem claim3_witness : (generateSchedule defaultPlayers 42).isOk = true := by
  have h := claim3_error_iff defaultPlayers 42 (by decide)
  exact h.1.mpr ⟨by decide, "p1", "p2", by decide, by decide, by decide⟩

/-! ### C8: the score-update path -/

theorem clamp24_idem (x : Int) : clamp24 (clamp24 x) = clamp24 x := by
  simp only [clamp24, Int.min_def, Int.max_def]
  split_ifs <;> omega

/-- The score object written by `setScoreAuto`, after simplifying the
double clamp on the auto-filled side. -/
def c8score (value : Int) (side : Nat) : Score :=
  { team1 := if side = 1 then clamp24 value else clamp24 (24 - value),
    team2 := if side = 1 then clamp24 (24 - value) else clamp24 value }

/-- C8: the score update replaces exactly the addressed match's score —
edited side clamped to `[0,24]`, other side `24 - value` independently
clamped — and leaves teams, courts, and every other match and round
untouched. -/
theorem claim8_setScoreAuto (schedule : List Round) (roundIdx matchIdx : Nat)
    (value : Int) (side : Nat) (rd : Round) (hrd : schedule[roundIdx]? = some rd)
    (m : Game) (hm : rd.matchList[matchIdx]? = some m) :
    ∃ rd2, (setScoreAuto schedule roundIdx matchIdx value side)[roundIdx]? = some rd2 ∧
      rd2.round = rd.round ∧
      rd2.matchList[matchIdx]? = some { m with score := some (c8score value side) } ∧
      (∀ j, j ≠ matchIdx → rd2.matchList[j]? = rd.matchList[j]?) ∧
      (∀ i, i ≠ roundIdx → (setScoreAuto schedule roundIdx matchIdx value side)[i]? = schedule[i]?) := by
  refine ⟨{ rd with
              matchList := rd.matchList.modify (fun g =>
                { g with
                    score := some
                      { team1 := clamp24 (if side = 1 then value else clamp24 (24 - value)),
                        team2 := clamp24 (if side = 1 then clamp24 (24 - value) else value) } })
                matchIdx },
    ?_, rfl, ?_, ?_, ?_⟩
  · rw [setScoreAuto, List.getElem?_modify_eq, hrd]
    rfl
  · rw [List.getElem?_modify_eq, hm]
    simp only [Option.map_some]
    have hsc : { team1 := clamp24 (if side = 1 then value else clamp24 (24 - value)),
                 team2 := clamp24 (if side = 1 then clamp24 (24 - value) else value) : Score }
        = c8score value side := by
      rw [c8score]
      by_cases hs : side = 1
      · rw [if_pos hs, if_pos hs, if_pos hs, if_pos hs, clamp24_idem]
      · rw [if_neg hs, if_neg hs, if_neg hs, if_neg hs, clamp24_idem]
    rw [hsc]
  · intro j hj
    exact List.getElem?_modify_ne _ rd.matchList (fun hh => hj hh.symm)
  · intro i hi
    rw [setScoreAuto]
    exact List.getElem?_modify_ne _ schedule (fun hh => hi hh.symm)

/-- An unscored demo match. -/
def demoGame : Game :=
  { court := 7, team1 := { a := "p1", b := "p2" }, team2 := { a := "p3", b := "p4" }, score := none }

/-- A one-round, one-match schedule used to exercise the score editor. -/
def demoSched : List Round := [{ round := 1, matchList := [demoGame] }]

/-- C8 witness: side 1 with value 30 clamps to 24–0. -/
theorem claim8_witness :
    ((setScoreAuto demoSched 0 0 30 1)[0]?.bind fun rd => rd.matchList[0]?) =
      some { demoGame with score := some { team1 := 24, team2 := 0 } } := by
  obtain ⟨rd2, h1, _, h2, _, _⟩ := claim8_setScoreAuto demoSched 0 0 30 1
    { round := 1, matchList := [demoGame] } (by rfl) demoGame (by rfl)
  rw [h1, Option.some_bind, h2]
  decide

/-- C9: the Duo rule only counts name matches — two players both named
"Daniel" (nobody named "Macho") are accepted as the Duo and a schedule is
generated. -/
theorem claim9_two_daniels :
    twoDaniels.length = 12 ∧
    (twoDaniels.countP fun p => p.name == "Daniel") = 2 ∧
    (twoDaniels.countP fun p => jsToLower (jsTrim p.name) == "macho") = 0 ∧
    duoIds twoDaniels = ["p1", "p2"] ∧
    generateSchedule twoDaniels 20251016 = .ok twoDanielsSched ∧
    twoDanielsSched.length = 15 ∧
    (((twoDanielsSched.headD { round := 0, matchList := [] }).matchList[0]?).map
      fun g => (g.court, g.team1)) = some (7, { a := "p1", b := "p2" }) := by
  exact ⟨by decide, by decide, by decide, by decide, by rfl, by decide, by decide⟩

/-! ### C4: invalid scores contribute nothing to the standings -/

/-- Clearing one match's score (the "schedule with that match's score
removed" of the claim). -/
def clearScore (schedule : List Round) (roundIdx matchIdx : Nat) : List Round :=
  schedule.modify (fun r =>
    { r with matchList := r.matchList.modify (fun g => { g with score := none }) matchIdx })
    roundIdx

theorem processMatch_none {players : List Player} {rows : List Row} {m : Game}
    (h : m.score = none) : processMatch players rows m = rows := by
  unfold processMatch
  rw [h]

theorem processMatch_invalid {players : List Player} {rows : List Row} {m : Game}
    {sc : Score} (h : m.score = some sc) (hv : sc.team1 + sc.team2 ≠ 24) :
    processMatch players rows m = rows := by
  unfold processMatch
  rw [h]
  exact if_pos hv

/-- C4: a match with no score or a non-24 score total contributes nothing
to any player's standings — the standings equal those of the schedule
with that match's score removed. -/
theorem claim4_invalid_ignored (schedule : List Round) (players : List Player)
    (roundIdx matchIdx : Nat) (rd : Round) (hrd : schedule[roundIdx]? = some rd)
    (m : Game) (hm : rd.matchList[matchIdx]? = some m)
    (hinv : ∀ sc, m.score = some sc → sc.team1 + sc.team2 ≠ 24) :
    computeStats (clearScore schedule roundIdx matchIdx) players
      = computeStats schedule players := by
  obtain ⟨hr, hrdElem⟩ := List.getElem?_eq_some_iff.mp hrd
  obtain ⟨hmi, hmElem⟩ := List.getElem?_eq_some_iff.mp hm
  have hskip : ∀ rows, processMatch players rows m = rows := by
    intro rows
    cases hsc : m.score with
    | none => exact processMatch_none hsc
    | some sc => exact processMatch_invalid hsc (hinv sc hsc)
  have hskip2 : ∀ rows, processMatch players rows { m with score := none } = rows := by
    intro rows
    exact processMatch_none rfl
  have hml : rd.matchList = rd.matchList.take matchIdx ++ m :: rd.matchList.drop (matchIdx + 1) := by
    conv_lhs => rw [← List.take_append_drop matchIdx rd.matchList]
    rw [List.drop_eq_getElem_cons hmi, hmElem]
  have hml2 : rd.matchList.modify (fun g => { g with score := none }) matchIdx
      = rd.matchList.take matchIdx ++ { m with score := none } :: rd.matchList.drop (matchIdx + 1) := by
    rw [List.modify_eq_take_cons_drop hmi, hmElem]
  have hs1 : clearScore schedule roundIdx matchIdx
      = schedule.take roundIdx ++
        { rd with matchList := rd.matchList.modify (fun g => { g with score := none }) matchIdx } ::
        schedule.drop (roundIdx + 1) := by
    rw [clearScore, List.modify_eq_take_cons_drop hr, hrdElem]
  have hs2 : schedule = schedule.take roundIdx ++ rd :: schedule.drop (roundIdx + 1) := by
    conv_lhs => rw [← List.take_append_drop roundIdx schedule]
    rw [List.drop_eq_getElem_cons hr, hrdElem]
  have hfold : ((clearScore schedule roundIdx matchIdx).flatMap (·.matchList)).foldl
        (processMatch players) []
      = ((schedule.flatMap (·.matchList)).foldl (processMatch players) []) := by
    rw [hs1]
    conv_rhs => rw [hs2]
    rw [List.flatMap_append, List.flatMap_cons, List.flatMap_append, List.flatMap_cons]
    rw [List.foldl_append, List.foldl_append, List.foldl_append, List.foldl_append]
    congr 1
    dsimp only
    rw [hml2]
    conv_rhs => rw [hml]
    rw [List.foldl_append, List.foldl_append, List.foldl_cons, List.foldl_cons]
    rw [hskip _, hskip2 _]
  unfold computeStats
  rw [hfold]

/-- A match scored 10–10 (sum 20, invalid). -/
def invalidGame : Game :=
  { court := 7, team1 := { a := "p1", b := "p2" }, team2 := { a := "p3", b := "p4" },
    score := some { team1 := 10, team2 := 10 } }

/-- A schedule whose only match is scored 10–10. -/
def invalidSched : List Round := [{ round := 1, matchList := [invalidGame] }]

/-- C4 witness: the 10–10 match contributes zero — the standings equal
those with its score removed. -/
theorem claim4_witness :
    computeStats (clearScore invalidSched 0 0) defaultPlayers
      = computeStats invalidSched defaultPlayers := by
  exact claim4_invalid_ignored invalidSched defaultPlayers 0 0
    { round := 1, matchList := [invalidGame] } (by rfl) invalidGame (by rfl)
    (by intro sc hsc; cases hsc; decide)


/-! ### C5: the standings ordering -/

theorem strLtb_irrefl : ∀ (l : List Char), strLtb l l = false
  | [] => rfl
  | a :: as => by
    rw [strLtb, if_neg (lt_irrefl a.toNat), if_neg (lt_irrefl a.toNat)]
    exact strLtb_irrefl as

theorem strLtb_asymm : ∀ {la lb : List Char}, strLtb la lb = true → strLtb lb la = false
  | [], [], h => by simpa [strLtb] using h
  | [], _ :: _, _ => rfl
  | _ :: _, [], h => by simpa [strLtb] using h
  | a :: as, b :: bs, h => by
    by_cases hab : a.toNat < b.toNat
    · have hba : ¬ b.toNat < a.toNat := by omega
      rw [strLtb, if_neg hba, if_pos hab]
    · by_cases hba : b.toNat < a.toNat
      · rw [strLtb, if_neg hab, if_pos hba] at h
        exact absurd h (by simp)
      · rw [strLtb, if_neg hab, if_neg hba] at h
        rw [strLtb, if_neg hba, if_neg hab]
        exact strLtb_asymm h

theorem strLtb_false_trans : ∀ {la lb lc : List Char},
    strLtb la lb = false → strLtb lb lc = false → strLtb la lc = false
  | la, _, [], _, _ => by cases la <;> rfl
  | _, [], _ :: _, _, h2 => absurd h2 (by simp [strLtb])
  | [], _ :: _, _ :: _, h1, _ => absurd h1 (by simp [strLtb])
  | a :: as, b :: bs, c :: cs, h1, h2 => by
    by_cases hab : a.toNat < b.toNat
    · rw [strLtb, if_pos hab] at h1
      exact absurd h1 (by simp)
    · by_cases hbc : b.toNat < c.toNat
      · rw [strLtb, if_pos hbc] at h2
        exact absurd h2 (by simp)
      · rw [strLtb, if_neg hab] at h1
        rw [strLtb, if_neg hbc] at h2
        by_cases hba : b.toNat < a.toNat
        · have hac : ¬ a.toNat < c.toNat := by omega
          have hca : c.toNat < a.toNat := by omega
          rw [strLtb, if_neg hac, if_pos hca]
        · by_cases hcb : c.toNat < b.toNat
          · have hac : ¬ a.toNat < c.toNat := by omega
            have hca : c.toNat < a.toNat := by omega
            rw [strLtb, if_neg hac, if_pos hca]
          · rw [if_neg hba] at h1
            rw [if_neg hcb] at h2
            have hac : ¬ a.toNat < c.toNat := by omega
            have hca : ¬ c.toNat < a.toNat := by omega
            rw [strLtb, if_neg hac, if_neg hca]
            exact strLtb_false_trans h1 h2

theorem jsLe_true_iff {a b : String} : jsLe a b = true ↔ strLtb b.data a.data = false := by
  rw [jsLe, jsLt]
  cases strLtb b.data a.data <;> simp

theorem jsLe_total (a b : String) : jsLe a b = true ∨ jsLe b a = true := by
  cases hb : strLtb b.data a.data with
  | false => exact .inl (jsLe_true_iff.mpr hb)
  | true => exact .inr (jsLe_true_iff.mpr (strLtb_asymm hb))

theorem jsLe_trans {a b c : String} (h1 : jsLe a b = true) (h2 : jsLe b c = true) :
    jsLe a c = true :=
  jsLe_true_iff.mpr
    (strLtb_false_trans (jsLe_true_iff.mp h2) (jsLe_true_iff.mp h1))

theorem strCmp_nonpos (a b : String) : strCmp a b ≤ 0 ↔ jsLe a b = true := by
  rw [strCmp]
  by_cases h1 : jsLt a b = true
  · rw [if_pos h1]
    exact iff_of_true (by norm_num) (jsLe_true_iff.mpr (strLtb_asymm h1))
  · by_cases h2 : jsLt b a = true
    · rw [if_neg h1, if_pos h2]
      refine iff_of_false (by norm_num) ?_
      rw [jsLe_true_iff]
      simp only [jsLt] at h2
      simp [h2]
    · rw [if_neg h1, if_neg h2]
      refine iff_of_true (le_refl 0) ?_
      rw [jsLe_true_iff]
      simp only [jsLt] at h2
      exact Bool.eq_false_iff.mpr h2

theorem jsOrInt_nonpos (x y : Int) : jsOrInt x y ≤ 0 ↔ (x < 0 ∨ (x = 0 ∧ y ≤ 0)) := by
  rw [jsOrInt]
  split_ifs with h <;> omega

/-- The ordering the specification asserts for the standings: points-for
descending, then wins descending, then differential descending, then
name ascending.  (This follows the spec wording; `claim5_sorted` relates
it to the source comparator `statCmp`.) -/
def StandingsLE (a b : Row) : Prop :=
  b.pointsFor < a.pointsFor ∨
    (b.pointsFor = a.pointsFor ∧
      (b.won < a.won ∨
        (b.won = a.won ∧
          (b.diff < a.diff ∨
            (b.diff = a.diff ∧ jsLe a.name b.name = true)))))

theorem statCmp_nonpos (a b : Row) : statCmp a b ≤ 0 ↔ StandingsLE a b := by
  rw [statCmp, jsOrInt_nonpos, jsOrInt_nonpos, jsOrInt_nonpos, strCmp_nonpos, StandingsLE]
  by_cases hn : jsLe a.name b.name = true <;> simp [hn] <;> omega

theorem StandingsLE_total (a b : Row) : StandingsLE a b ∨ StandingsLE b a := by
  rw [StandingsLE, StandingsLE]
  rcases lt_trichotomy a.pointsFor b.pointsFor with h1 | h1 | h1
  · exact .inr (.inl h1)
  · rcases lt_trichotomy a.won b.won with h2 | h2 | h2
    · exact .inr (.inr ⟨h1, .inl h2⟩)
    · rcases lt_trichotomy a.diff b.diff with h3 | h3 | h3
      · exact .inr (.inr ⟨h1, .inr ⟨h2, .inl h3⟩⟩)
      · rcases jsLe_total a.name b.name with hn | hn
        · exact .inl (.inr ⟨h1.symm, .inr ⟨h2.symm, .inr ⟨h3.symm, hn⟩⟩⟩)
        · exact .inr (.inr ⟨h1, .inr ⟨h2, .inr ⟨h3, hn⟩⟩⟩)
      · exact .inl (.inr ⟨h1.symm, .inr ⟨h2.symm, .inl h3⟩⟩)
    · exact .inl (.inr ⟨h1.symm, .inl h2⟩)
  · exact .inl (.inl h1)

theorem StandingsLE_trans {a b c : Row} (hab : StandingsLE a b) (hbc : StandingsLE b c) :
    StandingsLE a c := by
  rw [StandingsLE] at hab hbc ⊢
  rcases hab with h1 | ⟨e1, h1 | ⟨e2, h1 | ⟨e3, hn1⟩⟩⟩ <;>
    rcases hbc with h2 | ⟨f1, h2 | ⟨f2, h2 | ⟨f3, hn2⟩⟩⟩ <;>
    first
      | exact Or.inl (by omega)
      | exact Or.inr ⟨by omega, Or.inl (by omega)⟩
      | exact Or.inr ⟨by omega, Or.inr ⟨by omega, Or.inl (by omega)⟩⟩
      | exact Or.inr ⟨by omega, Or.inr ⟨by omega, Or.inr ⟨by omega, jsLe_trans hn1 hn2⟩⟩⟩

/-- C5: the standings list returned by `computeStats` is sorted by
points-for descending, then wins descending, then point-differential
descending, then name ascending (lexicographic); in particular two rows
tied on all three numbers appear in ascending name order. -/
theorem claim5_sorted (schedule : List Round) (players : List Player) :
    (computeStats schedule players).Pairwise StandingsLE := by
  have htrans : ∀ a b c : Row, decide (statCmp a b ≤ 0) = true →
      decide (statCmp b c ≤ 0) = true → decide (statCmp a c ≤ 0) = true := by
    intro a b c h1 h2
    simp only [decide_eq_true_eq, statCmp_nonpos] at h1 h2 ⊢
    exact StandingsLE_trans h1 h2
  have htotal : ∀ a b : Row,
      decide (statCmp a b ≤ 0) = true ∨ decide (statCmp b a ≤ 0) = true := by
    intro a b
    simp only [decide_eq_true_eq, statCmp_nonpos]
    exact StandingsLE_total a b
  have h := @stableSort_pairwise Row (fun a b => decide (statCmp a b ≤ 0)) htrans htotal
    (((schedule.flatMap (·.matchList)).foldl (processMatch players) []).map
      fun r => { r with diff := r.pointsFor - r.pointsAgainst })
  have he : computeStats schedule players
      = stableSort (fun a b => decide (statCmp a b ≤ 0))
        (((schedule.flatMap (·.matchList)).foldl (processMatch players) []).map
          fun r => { r with diff := r.pointsFor - r.pointsAgainst }) := rfl
  rw [he]
  exact h.imp fun hab => (statCmp_nonpos _ _).mp (of_decide_eq_true hab)

/-! ### C6: the Duo game log has no validity filter -/

/-- The duo matches of a schedule, tagged with their round number: the
matches `dmStats` iterates over and does not skip. -/
def duoGames (schedule : List Round) (danielId machoId : String) : List (Nat × Game) :=
  schedule.flatMap fun r =>
    (r.matchList.filter fun g =>
        hasDM danielId machoId g.team1 || hasDM danielId machoId g.team2).map
      fun g => (r.round, g)

theorem dmStatsEntry_none {d m : String} {players : List Player} {rnd : Nat} {g : Game}
    (h : (hasDM d m g.team1 || hasDM d m g.team2) = false) :
    dmStatsEntry d m players rnd g = none := by
  unfold dmStatsEntry
  rw [if_neg (by simp [h])]

theorem dmStatsEntry_some {d m : String} {players : List Player} {rnd : Nat} {g : Game}
    (h : (hasDM d m g.team1 || hasDM d m g.team2) = true) :
    ∃ e, dmStatsEntry d m players rnd g = some e ∧ e.round = rnd ∧
      e.score.isSome = g.score.isSome ∧ e.result.isSome = g.score.isSome := by
  unfold dmStatsEntry
  rw [if_pos h]
  cases hsc : g.score with
  | none => exact ⟨_, rfl, rfl, rfl, rfl⟩
  | some sc => exact ⟨_, rfl, rfl, rfl, rfl⟩

theorem forall2_append {α β : Type _} {R : α → β → Prop} {l3 : List α} {l4 : List β}
    (h34 : List.Forall₂ R l3 l4) :
    ∀ {l1 : List α} {l2 : List β}, List.Forall₂ R l1 l2 →
      List.Forall₂ R (l1 ++ l3) (l2 ++ l4) := by
  intro l1 l2 h12
  induction h12 with
  | nil => simpa using h34
  | cons h _ ih => exact List.Forall₂.cons h ih

theorem dmStats_round_forall2 (d mm : String) (players : List Player) (rnd : Nat) :
    ∀ gs : List Game,
      List.Forall₂ (fun (rg : Nat × Game) (e : GameLogEntry) =>
          e.round = rg.1 ∧ e.score.isSome = rg.2.score.isSome ∧
            e.result.isSome = rg.2.score.isSome)
        ((gs.filter fun g => hasDM d mm g.team1 || hasDM d mm g.team2).map fun g => (rnd, g))
        (gs.filterMap (dmStatsEntry d mm players rnd))
  | [] => .nil
  | g :: gs => by
    by_cases h : (hasDM d mm g.team1 || hasDM d mm g.team2) = true
    · obtain ⟨e, he, h1, h2, h3⟩ := @dmStatsEntry_some d mm players rnd g h
      simp only [List.filter_cons, h, if_true, List.map_cons, List.filterMap_cons, he]
      exact List.Forall₂.cons ⟨h1, h2, h3⟩ (dmStats_round_forall2 d mm players rnd gs)
    · have h' : (hasDM d mm g.team1 || hasDM d mm g.team2) = false := by
        revert h
        cases hasDM d mm g.team1 || hasDM d mm g.team2 <;> simp
      simp only [List.filter_cons, h', Bool.false_eq_true, if_false, List.filterMap_cons,
        dmStatsEntry_none h']
      exact dmStats_round_forall2 d mm players rnd gs

/-- C6 counterexample: a Duo match scored 10–10 (sum 20, excluded from
the standings — `computeStats` returns no rows at all) still produces a
game-log entry, with result "T": `dmStats` applies no sum-24 filter. -/
theorem claim6_counterexample :
    (dmStats invalidSched "p1" "p2" defaultPlayers).length = 1 ∧
    ((dmStats invalidSched "p1" "p2" defaultPlayers).map fun e => e.result) = [some "T"] ∧
    computeStats invalidSched defaultPlayers = [] := by
  exact ⟨by decide, by decide, by decide⟩

/-- C6 (amended): `dmStats` applies no valid-score filter: it produces
one entry, in order, for every match in which the Duo played — whether
the score is absent, invalid, or valid — carrying that round's number,
and its `score`/`result` fields are present exactly when the match has
any recorded score at all. -/
theorem claim6_no_filter (schedule : List Round) (danielId machoId : String)
    (players : List Player) :
    List.Forall₂ (fun (rg : Nat × Game) (e : GameLogEntry) =>
        e.round = rg.1 ∧ e.score.isSome = rg.2.score.isSome ∧
          e.result.isSome = rg.2.score.isSome)
      (duoGames schedule danielId machoId)
      (dmStats schedule danielId machoId players) := by
  induction schedule with
  | nil => exact .nil
  | cons r rs ih =>
    have e1 : duoGames (r :: rs) danielId machoId
        = ((r.matchList.filter fun g =>
              hasDM danielId machoId g.team1 || hasDM danielId machoId g.team2).map
            fun g => (r.round, g)) ++ duoGames rs danielId machoId := by
      rw [duoGames, duoGames, List.flatMap_cons]
    have e2 : dmStats (r :: rs) danielId machoId players
        = r.matchList.filterMap (dmStatsEntry danielId machoId players r.round)
          ++ dmStats rs danielId machoId players := by
      rw [dmStats, dmStats, List.flatMap_cons]
    rw [e1, e2]
    exact forall2_append ih (dmStats_round_forall2 danielId machoId players r.round r.matchList)

/-! ### C7: the Duo summary -/

/-- A match counted by `dmSummary`: the Duo is on one team and the score
is present and sums to 24. -/
def duoValid (danielId machoId : String) (m : Game) : Bool :=
  (hasDM danielId machoId m.team1 || hasDM danielId machoId m.team2) &&
    (match m.score with
     | none => false
     | some sc => decide (sc.team1 + sc.team2 = 24))

/-- The Duo team score of a match (0 if unscored; only used on scored
matches). -/
def dmScoreOf (danielId machoId : String) (m : Game) : Int :=
  match m.score with
  | none => 0
  | some sc => if hasDM danielId machoId m.team1 then sc.team1 else sc.team2

/-- The opposing team score of a match (0 if unscored). -/
def oppScoreOf (danielId machoId : String) (m : Game) : Int :=
  match m.score with
  | none => 0
  | some sc => if hasDM danielId machoId m.team1 then sc.team2 else sc.team1

/-- The matches of a schedule counted by `dmSummary`. -/
def duoMatches (schedule : List Round) (danielId machoId : String) : List Game :=
  (schedule.flatMap (·.matchList)).filter (duoValid danielId machoId)

theorem dmSummaryStep_skip {d mm : String} {acc : DmAcc} {g : Game}
    (h : duoValid d mm g = false) : dmSummaryStep d mm acc g = acc := by
  unfold duoValid at h
  by_cases hd : (hasDM d mm g.team1 || hasDM d mm g.team2) = true
  · rw [hd, Bool.true_and] at h
    unfold dmSummaryStep
    rw [if_pos hd]
    cases hsc : g.score with
    | none => rfl
    | some sc =>
      rw [hsc] at h
      have h2 : decide (sc.team1 + sc.team2 = 24) = false := h
      exact if_pos (of_decide_eq_false h2)
  · unfold dmSummaryStep
    rw [if_neg hd]

theorem dmSummaryStep_hit {d mm : String} {acc : DmAcc} {g : Game}
    (h : duoValid d mm g = true) :
    dmSummaryStep d mm acc g =
      { played := acc.played + 1,
        won := acc.won + (if dmScoreOf d mm g > oppScoreOf d mm g then 1 else 0),
        tied := acc.tied + (if dmScoreOf d mm g = oppScoreOf d mm g then 1 else 0),
        lost := acc.lost + (if dmScoreOf d mm g < oppScoreOf d mm g then 1 else 0),
        pointsFor := acc.pointsFor + dmScoreOf d mm g } := by
  unfold duoValid at h
  rw [Bool.and_eq_true] at h
  obtain ⟨hA, hm⟩ := h
  unfold dmSummaryStep
  rw [if_pos hA]
  cases hsc : g.score with
  | none =>
    rw [hsc] at hm
    simp at hm
  | some sc =>
    rw [hsc] at hm
    have h2 : decide (sc.team1 + sc.team2 = 24) = true := hm
    have h24 := of_decide_eq_true h2
    refine (if_neg (not_not_intro h24)).trans ?_
    simp only [dmScoreOf, oppScoreOf, hsc]

theorem dmSummaryAcc_go (d mm : String) : ∀ (gs : List Game) (acc : DmAcc),
    gs.foldl (dmSummaryStep d mm) acc =
      { played := acc.played + (gs.filter (duoValid d mm)).length,
        won := acc.won + (gs.filter (duoValid d mm)).countP
          (fun g => dmScoreOf d mm g > oppScoreOf d mm g),
        tied := acc.tied + (gs.filter (duoValid d mm)).countP
          (fun g => dmScoreOf d mm g = oppScoreOf d mm g),
        lost := acc.lost + (gs.filter (duoValid d mm)).countP
          (fun g => dmScoreOf d mm g < oppScoreOf d mm g),
        pointsFor := acc.pointsFor
          + ((gs.filter (duoValid d mm)).map (dmScoreOf d mm)).sum }
  | [], acc => by simp
  | g :: gs, acc => by
    rw [List.foldl_cons]
    by_cases h : duoValid d mm g = true
    · rw [dmSummaryStep_hit h, dmSummaryAcc_go d mm gs _]
      simp only [List.filter_cons, h, if_true, List.length_cons, List.countP_cons,
        List.map_cons, List.sum_cons, decide_eq_true_eq, DmAcc.mk.injEq]
      refine ⟨by omega, by omega, by omega, by omega, by omega⟩
    · have h' : duoValid d mm g = false := by
        revert h
        cases duoValid d mm g <;> simp
      rw [dmSummaryStep_skip h', dmSummaryAcc_go d mm gs acc]
      simp [List.filter_cons, h']

/-- C7: `dmSummary` counts exactly the matches in which the Duo played
with a score summing to 24 — `played` is their number, `won`/`tied`/
`lost` classify each by comparing the Duo team score with the opposing
score, `pointsFor` accumulates the Duo team score, and the average is
points-for over played (0 when none played).  Concretely, after scoring
round 1 court 7 of the seed-42 schedule as 15–9, the summary is
played 1, won 1, average 15. -/
theorem claim7_dm_summary (schedule : List Round) (danielId machoId : String) :
    (dmSummary schedule danielId machoId).played
        = (duoMatches schedule danielId machoId).length ∧
    (dmSummary schedule danielId machoId).won
        = (duoMatches schedule danielId machoId).countP
            (fun g => dmScoreOf danielId machoId g > oppScoreOf danielId machoId g) ∧
    (dmSummary schedule danielId machoId).tied
        = (duoMatches schedule danielId machoId).countP
            (fun g => dmScoreOf danielId machoId g = oppScoreOf danielId machoId g) ∧
    (dmSummary schedule danielId machoId).lost
        = (duoMatches schedule danielId machoId).countP
            (fun g => dmScoreOf danielId machoId g < oppScoreOf danielId machoId g) ∧
    (dmSummaryAcc schedule danielId machoId).pointsFor
        = ((duoMatches schedule danielId machoId).map (dmScoreOf danielId machoId)).sum ∧
    (dmSummary schedule danielId machoId).avg
        = (if (duoMatches schedule danielId machoId).length = 0 then (0 : ℚ)
           else (((duoMatches schedule danielId machoId).map
                    (dmScoreOf danielId machoId)).sum : ℚ)
             / ((duoMatches schedule danielId machoId).length : ℚ)) ∧
    dmSummaryAcc (setScoreAuto sched42 0 0 15 1) "p1" "p2"
        = { played := 1, won := 1, tied := 0, lost := 0, pointsFor := 15 } ∧
    dmSummary (setScoreAuto sched42 0 0 15 1) "p1" "p2"
        = { played := 1, won := 1, tied := 0, lost := 0, avg := 15 } := by
  have hc : dmSummaryAcc (setScoreAuto sched42 0 0 15 1) "p1" "p2"
      = { played := 1, won := 1, tied := 0, lost := 0, pointsFor := 15 } := by decide
  have hc2 : dmSummary (setScoreAuto sched42 0 0 15 1) "p1" "p2"
      = { played := 1, won := 1, tied := 0, lost := 0, avg := 15 } := by
    have e : dmSummary (setScoreAuto sched42 0 0 15 1) "p1" "p2"
        = { played := (dmSummaryAcc (setScoreAuto sched42 0 0 15 1) "p1" "p2").played,
            won := (dmSummaryAcc (setScoreAuto sched42 0 0 15 1) "p1" "p2").won,
            tied := (dmSummaryAcc (setScoreAuto sched42 0 0 15 1) "p1" "p2").tied,
            lost := (dmSummaryAcc (setScoreAuto sched42 0 0 15 1) "p1" "p2").lost,
            avg := if (dmSummaryAcc (setScoreAuto sched42 0 0 15 1) "p1" "p2").played = 0
              then (0 : ℚ)
              else ((dmSummaryAcc (setScoreAuto sched42 0 0 15 1) "p1" "p2").pointsFor : ℚ)
                / ((dmSummaryAcc (setScoreAuto sched42 0 0 15 1) "p1" "p2").played : ℚ) } := rfl
    rw [e, hc]
    simp
  have hacc := dmSummaryAcc_go danielId machoId (schedule.flatMap (·.matchList))
    { played := 0, won := 0, tied := 0, lost := 0, pointsFor := 0 }
  have hacc' : dmSummaryAcc schedule danielId machoId =
      { played := (duoMatches schedule danielId machoId).length,
        won := (duoMatches schedule danielId machoId).countP
          (fun g => dmScoreOf danielId machoId g > oppScoreOf danielId machoId g),
        tied := (duoMatches schedule danielId machoId).countP
          (fun g => dmScoreOf danielId machoId g = oppScoreOf danielId machoId g),
        lost := (duoMatches schedule danielId machoId).countP
          (fun g => dmScoreOf danielId machoId g < oppScoreOf danielId machoId g),
        pointsFor := ((duoMatches schedule danielId machoId).map
          (dmScoreOf danielId machoId)).sum } := by
    rw [dmSummaryAcc, hacc]
    simp [duoMatches]
  refine ⟨?_, ?_, ?_, ?_, ?_, ?_, hc, hc2⟩
  · show (dmSummaryAcc schedule danielId machoId).played = _
    rw [hacc']
  · show (dmSummaryAcc schedule danielId machoId).won = _
    rw [hacc']
  · show (dmSummaryAcc schedule danielId machoId).tied = _
    rw [hacc']
  · show (dmSummaryAcc schedule danielId machoId).lost = _
    rw [hacc']
  · rw [hacc']
  · show (if (dmSummaryAcc schedule danielId machoId).played = 0 then (0 : ℚ)
        else ((dmSummaryAcc schedule danielId machoId).pointsFor : ℚ)
          / ((dmSummaryAcc schedule danielId machoId).played : ℚ)) = _
    rw [hacc']

/-! ### C10: standings rows exist only for participants of valid matches -/

/-- Whether a recorded score is valid for aggregation (present and
summing to 24), mirroring the skip condition of `computeStats`. -/
def validScore : Option Score → Bool
  | none => false
  | some sc => decide (sc.team1 + sc.team2 = 24)

/-- Whether a player id occupies one of a match's four slots. -/
def playsIn (id : String) (m : Game) : Bool :=
  id = m.team1.a || id = m.team1.b || id = m.team2.a || id = m.team2.b

theorem processMatch_not_valid {players : List Player} {rows : List Row} {m : Game}
    (h : validScore m.score = false) : processMatch players rows m = rows := by
  cases hsc : m.score with
  | none => exact processMatch_none hsc
  | some sc =>
    rw [hsc] at h
    have h2 : decide (sc.team1 + sc.team2 = 24) = false := h
    exact processMatch_invalid hsc (of_decide_eq_false h2)

theorem updateRow_player {players : List Player} {rows : List Row} {id : String}
    {f : Row → Row} (hf : ∀ r, (f r).player = r.player) {r : Row}
    (hr : r ∈ updateRow players rows id f) :
    (∃ r0 ∈ rows, r.player = r0.player) ∨ r.player = id := by
  unfold updateRow at hr
  split at hr
  · obtain ⟨r0, h0, e0⟩ := List.mem_map.mp hr
    by_cases hp : r0.player = id
    · rw [if_pos hp] at e0
      exact .inl ⟨r0, h0, by rw [← e0, hf]⟩
    · rw [if_neg hp] at e0
      exact .inl ⟨r0, h0, by rw [← e0]⟩
  · rcases List.mem_append.mp hr with h | h
    · exact .inl ⟨r, h, rfl⟩
    · have he : r = f (freshRow players id) := by simpa using h
      rw [he, hf]
      exact .inr rfl

theorem updateRow_closure {players : List Player} {rows rowsB : List Row} {id : String}
    {f : Row → Row} {ids : List String} (hf : ∀ r, (f r).player = r.player)
    (hid : id ∈ ids)
    (h : ∀ r ∈ rowsB, (∃ r0 ∈ rows, r.player = r0.player) ∨ r.player ∈ ids) :
    ∀ r ∈ updateRow players rowsB id f,
      (∃ r0 ∈ rows, r.player = r0.player) ∨ r.player ∈ ids := by
  intro r hr
  rcases updateRow_player hf hr with ⟨r0, h0, e0⟩ | he
  · rcases h r0 h0 with ⟨r1, h1, e1⟩ | hm
    · exact .inl ⟨r1, h1, e0.trans e1⟩
    · exact .inr (by rw [e0]; exact hm)
  · exact .inr (by rw [he]; exact hid)

theorem updateRow_chain {players : List Player} {rows : List Row} {ids : List String} :
    ∀ (ups : List (String × (Row → Row))) (rowsB : List Row),
      (∀ u ∈ ups, (∀ r', (u.2 r').player = r'.player) ∧ u.1 ∈ ids) →
      (∀ r ∈ rowsB, (∃ r0 ∈ rows, r.player = r0.player) ∨ r.player ∈ ids) →
      ∀ r ∈ ups.foldl (fun acc u => updateRow players acc u.1 u.2) rowsB,
        (∃ r0 ∈ rows, r.player = r0.player) ∨ r.player ∈ ids
  | [], _, _, hB, r, hr => hB r hr
  | u :: ups, rowsB, hu, hB, r, hr => by
    rw [List.foldl_cons] at hr
    exact updateRow_chain ups _ (fun v hv => hu v (List.mem_cons_of_mem u hv))
      (updateRow_closure (hu u (List.mem_cons_self u ups)).1
        (hu u (List.mem_cons_self u ups)).2 hB)
      r hr

set_option maxHeartbeats 1600000 in
theorem processMatch_player (players : List Player) (rows : List Row) (m : Game) :
    ∀ r ∈ processMatch players rows m,
      (∃ r0 ∈ rows, r.player = r0.player) ∨
        (validScore m.score = true ∧ playsIn r.player m = true) := by
  intro r hr
  cases hsc : m.score with
  | none =>
    rw [processMatch_none hsc] at hr
    exact .inl ⟨r, hr, rfl⟩
  | some sc =>
    by_cases hv : sc.team1 + sc.team2 = 24
    · have hvs : validScore (some sc) = true := decide_eq_true hv
      unfold processMatch at hr
      rw [hsc] at hr
      dsimp only at hr
      rw [if_neg (not_not_intro hv)] at hr
      have base : ∀ r' ∈ rows, (∃ r0 ∈ rows, r'.player = r0.player) ∨
          r'.player ∈ [m.team1.a, m.team1.b, m.team2.a, m.team2.b] :=
        fun r' h' => .inl ⟨r', h', rfl⟩
      have hmem : ∀ x, x ∈ [m.team1.a, m.team1.b, m.team2.a, m.team2.b] →
          playsIn x m = true := by
        intro x hx
        simp only [List.mem_cons, List.not_mem_nil, or_false] at hx
        rcases hx with rfl | rfl | rfl | rfl <;> simp [playsIn]
      split at hr
      · rcases updateRow_chain
            [(m.team1.a, fun r => { r with played := r.played + 1, pointsFor := r.pointsFor + sc.team1, pointsAgainst := r.pointsAgainst + sc.team2 }),
             (m.team1.b, fun r => { r with played := r.played + 1, pointsFor := r.pointsFor + sc.team1, pointsAgainst := r.pointsAgainst + sc.team2 }),
             (m.team2.a, fun r => { r with played := r.played + 1, pointsFor := r.pointsFor + sc.team2, pointsAgainst := r.pointsAgainst + sc.team1 }),
             (m.team2.b, fun r => { r with played := r.played + 1, pointsFor := r.pointsFor + sc.team2, pointsAgainst := r.pointsAgainst + sc.team1 }),
             (m.team1.a, fun r => { r with won := r.won + 1 }),
             (m.team1.b, fun r => { r with won := r.won + 1 }),
             (m.team2.a, fun r => { r with lost := r.lost + 1 }),
             (m.team2.b, fun r => { r with lost := r.lost + 1 })]
            rows
            (by
              intro u hu
              simp only [List.mem_cons, List.not_mem_nil, or_false] at hu
              rcases hu with rfl | rfl | rfl | rfl | rfl | rfl | rfl | rfl <;>
                exact ⟨fun _ => rfl, by simp⟩)
            base r hr with h | h
        · exact .inl h
        · exact .inr ⟨hvs, hmem _ h⟩
      · split at hr
        · rcases updateRow_chain
              [(m.team1.a, fun r => { r with played := r.played + 1, pointsFor := r.pointsFor + sc.team1, pointsAgainst := r.pointsAgainst + sc.team2 }),
               (m.team1.b, fun r => { r with played := r.played + 1, pointsFor := r.pointsFor + sc.team1, pointsAgainst := r.pointsAgainst + sc.team2 }),
               (m.team2.a, fun r => { r with played := r.played + 1, pointsFor := r.pointsFor + sc.team2, pointsAgainst := r.pointsAgainst + sc.team1 }),
               (m.team2.b, fun r => { r with played := r.played + 1, pointsFor := r.pointsFor + sc.team2, pointsAgainst := r.pointsAgainst + sc.team1 }),
               (m.team2.a, fun r => { r with won := r.won + 1 }),
               (m.team2.b, fun r => { r with won := r.won + 1 }),
               (m.team1.a, fun r => { r with lost := r.lost + 1 }),
               (m.team1.b, fun r => { r with lost := r.lost + 1 })]
              rows
              (by
                intro u hu
                simp only [List.mem_cons, List.not_mem_nil, or_false] at hu
                rcases hu with rfl | rfl | rfl | rfl | rfl | rfl | rfl | rfl <;>
                  exact ⟨fun _ => rfl, by simp⟩)
              base r hr with h | h
          · exact .inl h
          · exact .inr ⟨hvs, hmem _ h⟩
        · rcases updateRow_chain
              [(m.team1.a, fun r => { r with played := r.played + 1, pointsFor := r.pointsFor + sc.team1, pointsAgainst := r.pointsAgainst + sc.team2 }),
               (m.team1.b, fun r => { r with played := r.played + 1, pointsFor := r.pointsFor + sc.team1, pointsAgainst := r.pointsAgainst + sc.team2 }),
               (m.team2.a, fun r => { r with played := r.played + 1, pointsFor := r.pointsFor + sc.team2, pointsAgainst := r.pointsAgainst + sc.team1 }),
               (m.team2.b, fun r => { r with played := r.played + 1, pointsFor := r.pointsFor + sc.team2, pointsAgainst := r.pointsAgainst + sc.team1 }),
               (m.team1.a, fun r => { r with tied := r.tied + 1 }),
               (m.team1.b, fun r => { r with tied := r.tied + 1 }),
               (m.team2.a, fun r => { r with tied := r.tied + 1 }),
               (m.team2.b, fun r => { r with tied := r.tied + 1 })]
              rows
              (by
                intro u hu
                simp only [List.mem_cons, List.not_mem_nil, or_false] at hu
                rcases hu with rfl | rfl | rfl | rfl | rfl | rfl | rfl | rfl <;>
                  exact ⟨fun _ => rfl, by simp⟩)
              base r hr with h | h
          · exact .inl h
          · exact .inr ⟨hvs, hmem _ h⟩
    · have hvs : validScore m.score = false := by
        rw [hsc]
        exact decide_eq_false hv
      rw [processMatch_not_valid hvs] at hr
      exact .inl ⟨r, hr, rfl⟩

theorem foldl_processMatch_player (players : List Player) :
    ∀ (ms : List Game) (rows : List Row) (r : Row),
      r ∈ ms.foldl (processMatch players) rows →
      (∃ r0 ∈ rows, r.player = r0.player) ∨
        ∃ m ∈ ms, validScore m.score = true ∧ playsIn r.player m = true
  | [], rows, r, hr => .inl ⟨r, hr, rfl⟩
  | m :: ms, rows, r, hr => by
    rcases foldl_processMatch_player players ms (processMatch players rows m) r hr with
      ⟨r0, h0, e0⟩ | ⟨g, hg, hgv⟩
    · rcases processMatch_player players rows m r0 h0 with ⟨r1, h1, e1⟩ | hv
      · exact .inl ⟨r1, h1, e0.trans e1⟩
      · exact .inr ⟨m, List.mem_cons_self m ms, hv.1, by rw [e0]; exact hv.2⟩
    · exact .inr ⟨g, List.mem_cons_of_mem m hg, hgv⟩

theorem foldl_processMatch_nil {players : List Player} :
    ∀ {ms : List Game}, (∀ m ∈ ms, validScore m.score = false) →
      ∀ rows, ms.foldl (processMatch players) rows = rows
  | [], _, _ => rfl
  | m :: ms, h, rows => by
    rw [List.foldl_cons, processMatch_not_valid (h m (List.mem_cons_self m ms))]
    exact foldl_processMatch_nil (fun g hg => h g (List.mem_cons_of_mem m hg)) rows

/-- C10: `computeStats` returns a row only for players appearing in at
least one match with a valid (sum-24) score; in particular a schedule
with no valid-scored match yields the empty standings. -/
theorem claim10_rows_only_participants (schedule : List Round) (players : List Player) :
    (∀ r ∈ computeStats schedule players,
        ∃ m ∈ schedule.flatMap (·.matchList),
          validScore m.score = true ∧ playsIn r.player m = true) ∧
    (((schedule.flatMap (·.matchList)).filter fun m => validScore m.score) = [] →
      computeStats schedule players = []) := by
  constructor
  · intro r hr
    have hr' : r ∈ (((schedule.flatMap (·.matchList)).foldl (processMatch players) []).map
        fun r => { r with diff := r.pointsFor - r.pointsAgainst }) :=
      (stableSort_perm (fun a b => decide (statCmp a b ≤ 0)) _).mem_iff.mp hr
    obtain ⟨r0, h0, e0⟩ := List.mem_map.mp hr'
    rcases foldl_processMatch_player players (schedule.flatMap (·.matchList)) [] r0 h0 with
      ⟨r1, h1, _⟩ | ⟨m, hm, hv, hp⟩
    · exact absurd h1 (List.not_mem_nil r1)
    · have ep : r.player = r0.player := by rw [← e0]
      exact ⟨m, hm, hv, by rw [ep]; exact hp⟩
  · intro h
    have hall : ∀ m ∈ schedule.flatMap (·.matchList), validScore m.score = false := by
      intro m hm
      have h2 := List.filter_eq_nil_iff.mp h m hm
      revert h2
      cases validScore m.score <;> simp
    have hfold : (schedule.flatMap (·.matchList)).foldl (processMatch players) []
        = ([] : List Row) := foldl_processMatch_nil hall []
    have e : computeStats schedule players
        = stableSort (fun a b => decide (statCmp a b ≤ 0))
          (((schedule.flatMap (·.matchList)).foldl (processMatch players) []).map
            fun r => { r with diff := r.pointsFor - r.pointsAgainst }) := rfl
    rw [e, hfold]
    rfl

/-- C10 witness: the one-match unscored demo schedule has no valid-scored
match and its standings are empty. -/
theorem claim10_witness : computeStats demoSched defaultPlayers = [] :=
  (claim10_rows_only_participants demoSched defaultPlayers).2 (by decide)

end Padel
